import Mathlib

/-!
Verification of the streaming completion protocol layer of the snow-cli
repository: the idle-timeout guard, the retry/backoff orchestrator
(`withRetry`, `withRetryGenerator`), the tolerant JSON repair routine
(`parseJsonWithFix`), and the per-provider SSE decode loops and adapter
state machines (OpenAI Chat, OpenAI Responses, Anthropic, Gemini).

The embedding is shallow: TypeScript values become Lean values, JS strings
become Lean `String`/`List Char`, JS numbers in the modelled fragment are
integers, thrown exceptions become `Except`/explicit error values, and the
`AbortSignal` is absent (the adapters' pure behaviour with no cancellation
requested).  Each definition is translated from the corresponding source
function; source file and function are named in the doc comments.
-/

namespace SnowCLI

/-! ## Character and string helpers (JS semantics) -/

/-- Whitespace recognised by JavaScript `String.prototype.trim` and the
regex class `\s`, restricted to the ASCII range used by the wire formats. -/
def jsWs (c : Char) : Bool :=
  c = ' ' ∨ c = '\t' ∨ c = '\n' ∨ c = '\r' ∨ c = '\x0b' ∨ c = '\x0c'

/-- Word character for the JS regex class `\w` : `[A-Za-z0-9_]`. -/
def wordChar (c : Char) : Bool :=
  ('a' ≤ c ∧ c ≤ 'z') ∨ ('A' ≤ c ∧ c ≤ 'Z') ∨ ('0' ≤ c ∧ c ≤ '9') ∨ c = '_'

/-- Drop leading JS whitespace. -/
def dropWsL : List Char → List Char
  | [] => []
  | c :: cs => if jsWs c then dropWsL cs else c :: cs

/-- JS `String.prototype.trim` on a character list. -/
def trimChars (s : List Char) : List Char :=
  (dropWsL ((dropWsL s.reverse)).reverse)

/-- Does list `s` start with `p`? -/
def startsWithL : List Char → List Char → Bool
  | _, [] => true
  | [], _ :: _ => false
  | c :: cs, p :: ps => c = p ∧ startsWithL cs ps

/-- Does list `s` contain `p` as a contiguous sublist? -/
def containsL (s p : List Char) : Bool :=
  match s with
  | [] => startsWithL [] p
  | _ :: cs => startsWithL s p ∨ containsL cs p

/-- JS `String.prototype.includes`. -/
def strIncludes (s pat : String) : Bool := containsL s.data pat.data

/-- JS `String.prototype.toLowerCase` (ASCII fragment). -/
def lowerStr (s : String) : String := String.mk (s.data.map Char.toLower)

/-- JS `String.prototype.trim`. -/
def trimStr (s : String) : String := String.mk (trimChars s.data)

/-! ## JSON data model

JavaScript values produced by `JSON.parse`.  Numbers in the modelled
fragment are integers (the token counts and tool arguments exercised by
this layer are integral). -/

inductive Json where
  | null : Json
  | bool (b : Bool) : Json
  | num (n : Int) : Json
  | str (s : String) : Json
  | arr (elems : List Json) : Json
  | obj (fields : List (String × Json)) : Json
deriving Repr, Inhabited

/-- Field lookup on a JSON object; `JSON.parse` lets a later duplicate key
overwrite an earlier one, so the last binding wins.  Non-objects have no
fields (JS property access on them yields `undefined`, i.e. `none`). -/
def Json.get? : Json → String → Option Json
  | .obj kvs, k => (kvs.reverse.find? (fun p => p.1 = k)).map (·.2)
  | _, _ => none

/-- Optional-chaining field access, as in `a?.b?.c`. -/
def oget (o : Option Json) (k : String) : Option Json := o.bind (Json.get? · k)

/-- JS truthiness of a possibly-absent value (`undefined`, `null`, `false`,
`0` and `""` are falsy). -/
def jsTruthy : Option Json → Bool
  | none => false
  | some .null => false
  | some (.bool b) => b
  | some (.num n) => n ≠ 0
  | some (.str s) => s ≠ ""
  | some (.arr _) => true
  | some (.obj _) => true

/-- String read of a field that the source concatenates or yields as text.
Mirrors JS string coercion on the values that can actually occur there. -/
def jsStr : Option Json → String
  | some (.str s) => s
  | some .null => "null"
  | none => "undefined"
  | some (.bool b) => cond b "true" "false"
  | some (.num n) => toString n
  | some (.arr _) => ""
  | some (.obj _) => "[object Object]"

/-- Numeric read with the `|| 0` default used throughout the adapters. -/
def jsNum : Option Json → Int
  | some (.num n) => n
  | _ => 0

/-- Does `e.type === t` hold for a parsed event object? -/
def typeIs (e : Json) (t : String) : Bool :=
  match e.get? "type" with
  | some (.str s) => s = t
  | _ => false

/-! ## JSON.parse (strict parser, integer numbers) -/

/-- Hexadecimal digit value. -/
def hexVal (c : Char) : Option Nat :=
  if '0' ≤ c ∧ c ≤ '9' then some (c.toNat - '0'.toNat)
  else if 'a' ≤ c ∧ c ≤ 'f' then some (c.toNat - 'a'.toNat + 10)
  else if 'A' ≤ c ∧ c ≤ 'F' then some (c.toNat - 'A'.toNat + 10)
  else none

/-- Parse the body of a JSON string literal (after the opening quote),
returning the decoded string and the rest after the closing quote. -/
def parseStrAux : Nat → List Char → List Char → Option (String × List Char)
  | 0, _, _ => none
  | _ + 1, acc, '"' :: rest => some (String.mk acc.reverse, rest)
  | fuel + 1, acc, '\\' :: e :: rest =>
    match e with
    | '"' => parseStrAux fuel ('"' :: acc) rest
    | '\\' => parseStrAux fuel ('\\' :: acc) rest
    | '/' => parseStrAux fuel ('/' :: acc) rest
    | 'b' => parseStrAux fuel ('\x08' :: acc) rest
    | 'f' => parseStrAux fuel ('\x0c' :: acc) rest
    | 'n' => parseStrAux fuel ('\n' :: acc) rest
    | 'r' => parseStrAux fuel ('\r' :: acc) rest
    | 't' => parseStrAux fuel ('\t' :: acc) rest
    | 'u' =>
      match rest with
      | h1 :: h2 :: h3 :: h4 :: rest' =>
        match hexVal h1, hexVal h2, hexVal h3, hexVal h4 with
        | some a, some b, some c, some d =>
          parseStrAux fuel (Char.ofNat (((a * 16 + b) * 16 + c) * 16 + d) :: acc) rest'
        | _, _, _, _ => none
      | _ => none
    | _ => none
  | fuel + 1, acc, c :: rest =>
    if c.toNat < 0x20 then none else parseStrAux fuel (c :: acc) rest
  | _ + 1, _, [] => none

/-- Split off the leading run of decimal digits. -/
def takeDigits : List Char → (List Char × List Char)
  | [] => ([], [])
  | c :: cs =>
    if '0' ≤ c ∧ c ≤ '9' then
      let (d, r) := takeDigits cs
      (c :: d, r)
    else ([], c :: cs)

/-- Numeric value of a digit run. -/
def digitsToNat (ds : List Char) : Nat :=
  ds.foldl (fun acc c => acc * 10 + (c.toNat - '0'.toNat)) 0

mutual

/-- Recursive-descent JSON value parser mirroring `JSON.parse` (strict: no
trailing commas, quoted keys only; numbers restricted to integers). -/
def parseValue : Nat → List Char → Option (Json × List Char)
  | 0, _ => none
  | fuel + 1, cs =>
    let cs := dropWsL cs
    match cs with
    | [] => none
    | '"' :: rest => (parseStrAux rest.length [] rest).map (fun (s, r) => (Json.str s, r))
    | '{' :: rest =>
      match dropWsL rest with
      | '}' :: r2 => some (Json.obj [], r2)
      | r2 => (parseObjItems fuel r2).map (fun (kvs, r) => (Json.obj kvs, r))
    | '[' :: rest =>
      match dropWsL rest with
      | ']' :: r2 => some (Json.arr [], r2)
      | r2 => (parseArrItems fuel r2).map (fun (xs, r) => (Json.arr xs, r))
    | '-' :: rest =>
      match takeDigits rest with
      | ([], _) => none
      | (ds, r) => some (Json.num (-(digitsToNat ds : Int)), r)
    | c :: _ =>
      if startsWithL cs "null".data then some (Json.null, cs.drop 4)
      else if startsWithL cs "true".data then some (Json.bool true, cs.drop 4)
      else if startsWithL cs "false".data then some (Json.bool false, cs.drop 5)
      else if '0' ≤ c ∧ c ≤ '9' then
        match takeDigits cs with
        | ([], _) => none
        | (ds, r) => some (Json.num (digitsToNat ds : Int), r)
      else none

/-- Parse the members of a non-empty array (after `[` and leading ws). -/
def parseArrItems : Nat → List Char → Option (List Json × List Char)
  | 0, _ => none
  | fuel + 1, cs => do
    let (v, r) ← parseValue fuel cs
    match dropWsL r with
    | ',' :: r2 => (parseArrItems fuel r2).map (fun (xs, r3) => (v :: xs, r3))
    | ']' :: r2 => some ([v], r2)
    | _ => none

/-- Parse the members of a non-empty object (after `{` and leading ws). -/
def parseObjItems : Nat → List Char → Option (List (String × Json) × List Char)
  | 0, _ => none
  | fuel + 1, cs =>
    match cs with
    | '"' :: rest => do
      let (k, r) ← parseStrAux rest.length [] rest
      match dropWsL r with
      | ':' :: r2 => do
        let (v, r3) ← parseValue fuel r2
        match dropWsL r3 with
        | ',' :: r4 =>
          (parseObjItems fuel (dropWsL r4)).map (fun (kvs, r5) => ((k, v) :: kvs, r5))
        | '}' :: r4 => some ([(k, v)], r4)
        | _ => none
      | _ => none
    | _ => none

end

/-- The model of `JSON.parse`: `some v` on success, `none` when JS would
throw a `SyntaxError`. -/
def jsonParse (s : String) : Option Json :=
  match parseValue (s.data.length + 1) s.data with
  | some (v, rest) => if dropWsL rest = [] then some v else none
  | none => none

/-! ## JSON.stringify -/

/-- Escape one character as `JSON.stringify` does inside string literals. -/
def escChar (c : Char) : List Char :=
  if c = '"' then ['\\', '"']
  else if c = '\\' then ['\\', '\\']
  else if c = '\n' then ['\\', 'n']
  else if c = '\r' then ['\\', 'r']
  else if c = '\t' then ['\\', 't']
  else if c = '\x08' then ['\\', 'b']
  else if c = '\x0c' then ['\\', 'f']
  else if c.toNat < 0x20 then
    let hex := fun (n : Nat) => (if n < 10 then Char.ofNat ('0'.toNat + n)
      else Char.ofNat ('a'.toNat + n - 10))
    ['\\', 'u', '0', '0', hex (c.toNat / 16), hex (c.toNat % 16)]
  else [c]

/-- Serialise a string as a JSON string literal. -/
def escString (s : String) : String :=
  String.mk ('"' :: (s.data.flatMap escChar) ++ ['"'])

mutual

/-- The model of `JSON.stringify` on parsed values. -/
def jsonStringify : Json → String
  | .null => "null"
  | .bool b => cond b "true" "false"
  | .num n => toString n
  | .str s => escString s
  | .arr xs => "[" ++ stringifyArr xs ++ "]"
  | .obj kvs => "\x7b" ++ stringifyObj kvs ++ "\x7d"

/-- Comma-separated serialisation of array elements. -/
def stringifyArr : List Json → String
  | [] => ""
  | [x] => jsonStringify x
  | x :: y :: rest => jsonStringify x ++ "," ++ stringifyArr (y :: rest)

/-- Comma-separated serialisation of object members. -/
def stringifyObj : List (String × Json) → String
  | [] => ""
  | [(k, v)] => escString k ++ ":" ++ jsonStringify v
  | (k, v) :: p :: rest => escString k ++ ":" ++ jsonStringify v ++ "," ++ stringifyObj (p :: rest)

end

/-! ## parseJsonWithFix (src/source/utils/core/retryUtils.ts, lines 288-420)

The five textual repairs are JS regex operations; each is embedded as a
direct scanner with the same (greedy, leftmost, non-overlapping) match
semantics as the corresponding regex. -/

/-- Split off the maximal run of characters satisfying `p`. -/
def takeWhileL (p : Char → Bool) : List Char → (List Char × List Char)
  | [] => ([], [])
  | c :: cs =>
    if p c then
      let (a, b) := takeWhileL p cs
      (c :: a, b)
    else ([], c :: cs)

/-- Attempt to match the tail of Fix 1's pattern, `\s*":\s*"[^"]*"`,
starting at `cs`; returns the rest after the match. -/
def fix1Tail (cs : List Char) : Option (List Char) :=
  let (_, r1) := takeWhileL jsWs cs
  match r1 with
  | '"' :: ':' :: r2 =>
    let (_, r3) := takeWhileL jsWs r2
    match r3 with
    | '"' :: r4 =>
      let (_, r5) := takeWhileL (fun c => c ≠ '"') r4
      match r5 with
      | '"' :: r6 => some r6
      | _ => none
    | _ => none
  | _ => none

/-- Greedy backtracking over the value class `[^,}\]]+` of Fix 1: try the
longest candidate value `m` first, shrinking from the right until the rest
of the pattern matches.  Returns the value part and the rest after the
whole match.  The fuel is the length of the initial candidate. -/
def fix1Shrink : Nat → List Char → List Char → Option (List Char × List Char)
  | _, [], _ => none
  | 0, _, _ => none
  | fuel + 1, m, rest =>
    match fix1Tail rest with
    | some ra => some (m, ra)
    | none => fix1Shrink fuel m.dropLast (m.getLastD ' ' :: rest)

/-- Character class `[^,}\]]` of Fix 1's value part. -/
def fix1ValChar (c : Char) : Bool := ¬(c = ',' ∨ c = '}' ∨ c = ']')

/-- Match Fix 1's full pattern starting exactly at `cs`; on success returns
the capture group `$1` and the rest after the match. -/
def fix1At (cs : List Char) : Option (List Char × List Char) :=
  match cs with
  | '"' :: r1 =>
    match takeWhileL wordChar r1 with
    | ([], _) => none
    | (w, r2) =>
      match r2 with
      | '"' :: r3 =>
        let (ws1, r4) := takeWhileL jsWs r3
        match r4 with
        | ':' :: r5 =>
          let (ws2, r6) := takeWhileL jsWs r5
          let (m, after) := takeWhileL fix1ValChar r6
          match fix1Shrink m.length m after with
          | some (v, ra) =>
            some ('"' :: w ++ '"' :: ws1 ++ ':' :: ws2 ++ v, ra)
          | none => none
        | _ => none
      | _ => none
  | _ => none

/-- One left-to-right pass of `fixedJson.replace(malformedPattern, '$1')`
(global, non-overlapping, each match replaced by its capture group). -/
def fix1Go : Nat → List Char → List Char
  | 0, cs => cs
  | _ + 1, [] => []
  | fuel + 1, c :: cs =>
    match fix1At (c :: cs) with
    | some (g1, rest) => g1 ++ fix1Go fuel rest
    | none => c :: fix1Go fuel cs

/-- Does Fix 1's pattern match anywhere (`malformedPattern.test`)? -/
def fix1Test (cs : List Char) : Bool :=
  match cs with
  | [] => false
  | c :: cs' => (fix1At (c :: cs')).isSome ∨ fix1Test cs'

/-- Fix 2 of `parseJsonWithFix`: one global pass of
`replace(/,(\s*[}\]])/g, '$1')`, removing trailing commas before a closing
brace or bracket. -/
def fix2Go : Nat → List Char → List Char
  | 0, cs => cs
  | _ + 1, [] => []
  | fuel + 1, c :: cs =>
    if c = ',' then
      let (ws, r) := takeWhileL jsWs cs
      match r with
      | b :: r' =>
        if b = '}' ∨ b = ']' then ws ++ b :: fix2Go fuel r'
        else c :: fix2Go fuel cs
      | [] => c :: fix2Go fuel cs
    else c :: fix2Go fuel cs

/-- Does Fix 2's pattern `,(\s*[}\]])` match starting at the head? -/
def fix2AtHead (c : Char) (cs : List Char) : Bool :=
  if c = ',' then
    match takeWhileL jsWs cs with
    | (_, b :: _) => b = '}' ∨ b = ']'
    | (_, []) => false
  else false

/-- Does Fix 2's pattern `,(\s*[}\]])` match anywhere? -/
def fix2Test : List Char → Bool
  | [] => false
  | c :: cs => fix2AtHead c cs ∨ fix2Test cs

/-- Match `\s*(\w+)\s*:` starting at `cs` (the part of Fix 3's patterns
after the opening `{` or `,`); returns the key and the rest after `:`. -/
def fix3At (cs : List Char) : Option (List Char × List Char) :=
  let (_, r1) := takeWhileL jsWs cs
  match takeWhileL wordChar r1 with
  | ([], _) => none
  | (w, r2) =>
    let (_, r3) := takeWhileL jsWs r2
    match r3 with
    | ':' :: r4 => some (w, r4)
    | _ => none

/-- One global pass of `replace(/{\s*(\w+)\s*:/g, '{"$1":')`. -/
def fix3BraceGo : Nat → List Char → List Char
  | 0, cs => cs
  | _ + 1, [] => []
  | fuel + 1, c :: cs =>
    if c = '{' then
      match fix3At cs with
      | some (w, rest) => '{' :: '"' :: w ++ '"' :: ':' :: fix3BraceGo fuel rest
      | none => c :: fix3BraceGo fuel cs
    else c :: fix3BraceGo fuel cs

/-- One global pass of `replace(/,\s*(\w+)\s*:/g, ',"$1":')`. -/
def fix3CommaGo : Nat → List Char → List Char
  | 0, cs => cs
  | _ + 1, [] => []
  | fuel + 1, c :: cs =>
    if c = ',' then
      match fix3At cs with
      | some (w, rest) => ',' :: '"' :: w ++ '"' :: ':' :: fix3CommaGo fuel rest
      | none => c :: fix3CommaGo fuel cs
    else c :: fix3CommaGo fuel cs

/-- Does Fix 3's trigger pattern `{\s*\w+\s*:` match anywhere? -/
def fix3Test : List Char → Bool
  | [] => false
  | c :: cs => (c = '{' ∧ (fix3At cs).isSome) ∨ fix3Test cs

/-- Count occurrences of a character (the brace/bracket tallies of Fix 4
and Fix 5, which look at the raw text, string literals included). -/
def countChar (c : Char) (cs : List Char) : Nat := cs.countP (· = c)

/-- Remove the first occurrence of `c` (helper for Fix 5). -/
def removeFirstChar (c : Char) : List Char → List Char
  | [] => []
  | x :: xs => if x = c then xs else x :: removeFirstChar c xs

/-- One application of `replace(/}([^}]*)$/, '$1')` (resp. for `]`):
remove the last occurrence of the character, if any. -/
def removeLastChar (c : Char) (cs : List Char) : List Char :=
  (removeFirstChar c cs.reverse).reverse

/-- Iterate `removeLastChar` (the `for` loops of Fix 5). -/
def removeLastChars (c : Char) : Nat → List Char → List Char
  | 0, cs => cs
  | n + 1, cs => removeLastChars c n (removeLastChar c cs)

/-- Result record of `parseJsonWithFix`.  The JS object elides fields that
were never assigned; an absent boolean is falsy, so `wasFixed` is a `Bool`
with `false` for "absent", and absent strings are `none`.  The `error`
field only records whether an `Error` value is present. -/
structure JsonParseResult where
  success : Bool
  data : Option Json := none
  error : Bool := false
  wasFixed : Bool := false
  originalJson : Option String := none
  fixedJson : Option String := none
deriving Repr

/-- The repair pipeline of `parseJsonWithFix` between the two parse
attempts: the five fixes applied in source order, each only if its trigger
pattern matches, tracking whether any fired. -/
def applyJsonFixes (s : List Char) : List Char × Bool :=
  -- Fix 1: strip a spurious trailing `":"..."` fragment
  let (s1, f1) := if fix1Test s then (fix1Go s.length s, true) else (s, false)
  -- Fix 2: trailing commas before a closing brace/bracket
  let (s2, f2) := if fix2Test s1 then (fix2Go s1.length s1, true) else (s1, f1)
  -- Fix 3: quote bare object keys
  let (s3, f3) :=
    if fix3Test s2 then (fix3CommaGo s2.length (fix3BraceGo s2.length s2), true)
    else (s2, f2)
  -- Fixes 4 and 5: balance braces/brackets using tallies computed now
  let openBraces := countChar '{' s3
  let closeBraces := countChar '}' s3
  let openBrackets := countChar '[' s3
  let closeBrackets := countChar ']' s3
  let (s4, f4) :=
    if closeBraces < openBraces then
      (s3 ++ List.replicate (openBraces - closeBraces) '}', true)
    else (s3, f3)
  let (s5, f5) :=
    if closeBrackets < openBrackets then
      (s4 ++ List.replicate (openBrackets - closeBrackets) ']', true)
    else (s4, f4)
  let (s6, f6) :=
    if openBraces < closeBraces then
      (removeLastChars '}' (closeBraces - openBraces) s5, true)
    else (s5, f5)
  let (s7, f7) :=
    if openBrackets < closeBrackets then
      (removeLastChars ']' (closeBrackets - openBrackets) s6, true)
    else (s6, f6)
  (s7, f7)

/-- Model of `parseJsonWithFix` (retryUtils.ts lines 288-420).  The
`logWarning`/`logError`/`toolName` options only affect logging and are
omitted; `fallbackValue` is the optional fallback. -/
def parseJsonWithFix (jsonString : String) (fallbackValue : Option Json) :
    JsonParseResult :=
  match jsonParse jsonString with
  | some data => { success := true, data := some data }
  | none =>
    let (fixedChars, wasFixed) := applyJsonFixes jsonString.data
    let fixedJson := String.mk fixedChars
    match jsonParse fixedJson with
    | some data =>
      { success := true, data := some data, wasFixed := wasFixed,
        originalJson := some jsonString, fixedJson := some fixedJson }
    | none =>
      match fallbackValue with
      | some fb =>
        { success := false, data := some fb, error := true, wasFixed := wasFixed,
          originalJson := some jsonString,
          fixedJson := if wasFixed then some fixedJson else none }
      | none =>
        { success := false, error := true, wasFixed := wasFixed,
          originalJson := some jsonString,
          fixedJson := if wasFixed then some fixedJson else none }


/-! ## Retry orchestrator (src/source/utils/core/retryUtils.ts)

Errors are modelled by their `name` and `message` (the only parts the
retry logic inspects).  The `AbortSignal` is absent throughout, so the
`abortSignal?.aborted` checks are no-ops, and the backoff waits always
complete. -/

/-- A JS `Error` as seen by the retry classifier. -/
structure Err where
  name : String
  message : String
deriving Repr, DecidableEq

/-- Model of `isRetriableError` (retryUtils.ts lines 50-120). -/
def isRetriableError (error : Err) : Bool :=
  -- name-based check first, to reduce dependence on message wording
  if error.name = "StreamIdleTimeoutError" then true
  else
    let errorMessage := lowerStr error.message
    -- network errors
    if strIncludes errorMessage "network" ∨
        strIncludes errorMessage "econnrefused" ∨
        strIncludes errorMessage "econnreset" ∨
        strIncludes errorMessage "etimedout" ∨
        strIncludes errorMessage "timeout" then true
    -- rate limit errors
    else if strIncludes errorMessage "rate limit" ∨
        strIncludes errorMessage "too many requests" ∨
        strIncludes errorMessage "429" then true
    -- server errors (5xx)
    else if strIncludes errorMessage "500" ∨
        strIncludes errorMessage "502" ∨
        strIncludes errorMessage "503" ∨
        strIncludes errorMessage "504" ∨
        strIncludes errorMessage "internal server error" ∨
        strIncludes errorMessage "bad gateway" ∨
        strIncludes errorMessage "service unavailable" ∨
        strIncludes errorMessage "gateway timeout" then true
    -- temporary service unavailable
    else if strIncludes errorMessage "overloaded" ∨
        strIncludes errorMessage "unavailable" then true
    -- connection terminated by server
    else if strIncludes errorMessage "terminated" ∨
        strIncludes errorMessage "connection reset" ∨
        strIncludes errorMessage "socket hang up" then true
    -- JSON parsing errors from streaming
    else if strIncludes errorMessage "invalid tool call json" ∨
        strIncludes errorMessage "incomplete tool call json" then true
    else false

/-- The abort test shared by `withRetry` and `withRetryGenerator`:
`error.name === 'AbortError' || error.message === 'Aborted'`. -/
def isAbortShaped (e : Err) : Bool :=
  e.name = "AbortError" ∨ e.message = "Aborted"

/-- The stream-interruption signature of `withRetryGenerator` (retryUtils.ts
line 227-231): the case-insensitive regex
`/Stream terminated unexpectedly|incomplete data|reader error|^terminated$|idle timeout/i`
(the `^terminated$` alternative matches only the whole message). -/
def isStreamInterruption (message : String) : Bool :=
  let l := lowerStr message
  strIncludes l "stream terminated unexpectedly" ∨
    strIncludes l "incomplete data" ∨
    strIncludes l "reader error" ∨
    l = "terminated" ∨
    strIncludes l "idle timeout"

/-- Observable result of a `withRetry` run: the returned/raised value, the
`onRetry` observer invocations `(error, attempt + 1, nextDelay)` in order,
and how many times the wrapped operation was invoked. -/
structure RetryRun (T : Type) where
  result : Except Err T
  onRetryCalls : List (Err × Nat × Nat)
  calls : Nat
deriving Repr

/-- Placeholder for the unreachable `new Error('Retry failed')`. -/
def retryFailedErr : Err := ⟨"Error", "Retry failed"⟩

/-- The `while (attempt <= maxRetries)` loop of `withRetry` (retryUtils.ts
lines 125-183).  Successive invocations of the zero-argument operation are
modelled by `ops : Nat → Except Err T` (invocation `i` is `ops i`);
`lastError` threads the `lastError` variable into the unreachable final
`throw`. -/
def withRetryGo {T : Type} (ops : Nat → Except Err T) (maxRetries baseDelay : Nat) :
    Option Err → Nat → Nat → RetryRun T
  | lastError, _, 0 =>
    -- the loop condition `attempt <= maxRetries` has failed
    { result := .error (lastError.getD retryFailedErr), onRetryCalls := [], calls := 0 }
  | _, attempt, fuel + 1 =>
    match ops attempt with
    | .ok v => { result := .ok v, onRetryCalls := [], calls := 1 }
    | .error e =>
      -- AbortError exits immediately
      if isAbortShaped e then { result := .error e, onRetryCalls := [], calls := 1 }
      -- attempt >= maxRetries: out of retries
      else if maxRetries ≤ attempt then { result := .error e, onRetryCalls := [], calls := 1 }
      -- non-retriable errors are re-raised
      else if ¬ isRetriableError e then { result := .error e, onRetryCalls := [], calls := 1 }
      else
        let nextDelay := baseDelay * 2 ^ attempt
        let rest := withRetryGo ops maxRetries baseDelay (some e) (attempt + 1) fuel
        { result := rest.result,
          onRetryCalls := (e, attempt + 1, nextDelay) :: rest.onRetryCalls,
          calls := rest.calls + 1 }

/-- Model of `withRetry` with explicit `maxRetries`/`baseDelay` options
(defaults 5 and 1000 at the call sites).  The structural fuel
`maxRetries + 1` counts the remaining iterations of the
`while (attempt <= maxRetries)` loop, so fuel `maxRetries + 1 - attempt`
is positive exactly while the loop condition holds. -/
def withRetry {T : Type} (ops : Nat → Except Err T) (maxRetries baseDelay : Nat) :
    RetryRun T :=
  withRetryGo ops maxRetries baseDelay none 0 (maxRetries + 1)

/-- One invocation of a wrapped producer: the chunks it yields to the
caller, then either clean completion (`none`) or a raised error. -/
structure GenAttempt (T : Type) where
  yields : List T
  outcome : Option Err
deriving Repr

/-- Observable result of a `withRetryGenerator` run: everything yielded to
the caller across attempts, the final result, the observer invocations and
the number of producer invocations. -/
structure GenRun (T : Type) where
  emitted : List T
  result : Except Err Unit
  onRetryCalls : List (Err × Nat × Nat)
  calls : Nat
deriving Repr

/-- The retry loop of `withRetryGenerator` (retryUtils.ts lines 189-268).
`hasYielded` is the flag marking that at least one chunk reached the
caller; on an error the stream-interruption test runs before both the
attempt-exhaustion and the retriability checks, exactly as in the source. -/
def withRetryGeneratorGo {T : Type} (fn : Nat → GenAttempt T)
    (maxRetries baseDelay : Nat) :
    Option Err → Bool → Nat → Nat → GenRun T
  | lastError, _, _, 0 =>
    -- the loop condition `attempt <= maxRetries` has failed
    { emitted := [], result := .error (lastError.getD retryFailedErr),
      onRetryCalls := [], calls := 0 }
  | _, hasYielded, attempt, fuel + 1 =>
    let a := fn attempt
    let hy := hasYielded || !a.yields.isEmpty
    match a.outcome with
    | none => { emitted := a.yields, result := .ok (), onRetryCalls := [], calls := 1 }
    | some e =>
      if isAbortShaped e then
        { emitted := a.yields, result := .error e, onRetryCalls := [], calls := 1 }
      -- an error after partial output is fatal unless it is a stream interruption
      else if hy && !isStreamInterruption e.message then
        { emitted := a.yields, result := .error e, onRetryCalls := [], calls := 1 }
      else if maxRetries ≤ attempt then
        { emitted := a.yields, result := .error e, onRetryCalls := [], calls := 1 }
      else if ¬ isRetriableError e then
        { emitted := a.yields, result := .error e, onRetryCalls := [], calls := 1 }
      else
        let nextDelay := baseDelay * 2 ^ attempt
        let rest := withRetryGeneratorGo fn maxRetries baseDelay (some e) hy (attempt + 1) fuel
        { emitted := a.yields ++ rest.emitted,
          result := rest.result,
          onRetryCalls := (e, attempt + 1, nextDelay) :: rest.onRetryCalls,
          calls := rest.calls + 1 }

/-- Model of `withRetryGenerator` (fuel as in `withRetry`). -/
def withRetryGenerator {T : Type} (fn : Nat → GenAttempt T)
    (maxRetries baseDelay : Nat) : GenRun T :=
  withRetryGeneratorGo fn maxRetries baseDelay none false 0 (maxRetries + 1)

/-! ## Idle-timeout guard (streamGuard: src/unnamed/part_001,
`createIdleTimeoutGuard`, lines 194-296)

The guard's closure state is a record; `Date.now()` becomes an explicit
`now : Nat` argument (time never runs backwards, so `now` is at least
`lastChunkTime` at every call).  The `reader.cancel()` and logging calls
have no observable effect on the guard state and are dropped. -/

/-- Default idle threshold `STREAM_IDLE_TIMEOUT_MS` (3 minutes). -/
def STREAM_IDLE_TIMEOUT_MS : Nat := 180000

/-- Cadence of the periodic idle check (`setInterval(..., 5000)`). -/
def IDLE_CHECK_INTERVAL_MS : Nat := 5000

/-- A `StreamIdleTimeoutError` with the message built by its constructor;
its name marks it retriable and its message marks it a stream
interruption. -/
def streamIdleTimeoutError (idleMs : Nat) : Err :=
  { name := "StreamIdleTimeoutError",
    message := "[API_ERROR] [RETRIABLE] Stream idle timeout: No data received for " ++
      toString idleMs ++ "ms" }

/-- Mutable closure state of one guard instance. -/
structure GuardState where
  isAbandoned : Bool
  lastChunkTime : Nat
  timeoutError : Option Err
deriving Repr

/-- Fresh guard state at creation time `now` (`lastChunkTime = Date.now()`). -/
def guardInit (now : Nat) : GuardState :=
  { isAbandoned := false, lastChunkTime := now, timeoutError := none }

/-- One run of the periodic check callback at time `now`.
`onTimeoutThrows` is the error raised by the caller's `onTimeout` callback,
if a callback is installed (every adapter installs one that throws a
`StreamIdleTimeoutError`); the guard captures that error rather than
letting it escape the timer. -/
def guardCheck (idleTimeoutMs : Nat) (onTimeoutThrows : Option Err) (now : Nat)
    (s : GuardState) : GuardState :=
  if s.isAbandoned then s
  else if now - s.lastChunkTime ≤ idleTimeoutMs then s
  else
    let s1 : GuardState := { s with isAbandoned := true }
    -- set the default timeout error unless one is already captured
    let s2 : GuardState :=
      if s1.timeoutError = none then
        { s1 with timeoutError := some (streamIdleTimeoutError idleTimeoutMs) }
      else s1
    -- a throwing onTimeout callback replaces the stored error
    match onTimeoutThrows with
    | some e => { s2 with timeoutError := some e }
    | none => s2

/-- The `touch()` handle: reset the inactivity clock to `now`. -/
def guardTouch (now : Nat) (s : GuardState) : GuardState :=
  { s with lastChunkTime := now }

/-- The `abandon()` handle. -/
def guardAbandon (s : GuardState) : GuardState :=
  { s with isAbandoned := true }

/-! ## SSE frame decoding

Each adapter runs the same `while(true)` read loop: append the decoded
chunk to `buffer`, split on `'\n'`, keep the final fragment as the new
buffer, and process each complete line.  The byte stream is modelled as
the list of decoded chunk strings handed over by `reader.read()`
(`TextDecoder` is the identity on the text fragment modelled here); the
abort signal is absent and the guard never fires, so the pure decode path
is taken. -/

/-- Prepend `l` to the first part of a split (the glue step of buffered
line splitting). -/
def consHead (l : List Char) : List (List Char) → List (List Char)
  | [] => [l]
  | p :: ps => (l ++ p) :: ps

/-- `String.prototype.split('\n')` : the resulting parts, never empty. -/
def splitNl : List Char → List (List Char)
  | [] => [[]]
  | c :: rest => if c = '\n' then [] :: splitNl rest else consHead [c] (splitNl rest)

/-- The sentinel test `trimmed === 'data: [DONE]' || trimmed === 'data:[DONE]'`. -/
def isDoneLine (trimmed : List Char) : Bool :=
  trimmed = "data: [DONE]".data ∨ trimmed = "data:[DONE]".data

/-- Check `o?.type === t` on an optional object. -/
def otypeIs (o : Option Json) (t : String) : Bool :=
  match oget o "type" with
  | some (.str s) => s = t
  | _ => false

/-- The `hasBusinessDelta` predicate of the Anthropic `parseSSEStream`
(anthropic.ts lines 562-570): a tool-use `content_block_start`, or a
`content_block_delta` with non-empty text / thinking / partial-json
payload. -/
def anthBusinessDelta (event : Json) : Bool :=
  (typeIs event "content_block_start" ∧ otypeIs (event.get? "content_block") "tool_use") ∨
  (typeIs event "content_block_delta" ∧
    ((otypeIs (event.get? "delta") "text_delta" ∧
        jsTruthy (oget (event.get? "delta") "text")) ∨
     (otypeIs (event.get? "delta") "thinking_delta" ∧
        jsTruthy (oget (event.get? "delta") "thinking")) ∨
     (otypeIs (event.get? "delta") "input_json_delta" ∧
        jsTruthy (oget (event.get? "delta") "partial_json"))))

/-- Truthiness plus `length > 0` test on an optional array value. -/
def nonEmptyArr (o : Option Json) : Bool :=
  match o with
  | some (.arr xs) => ¬ xs.isEmpty
  | _ => false

/-- One choice's delta test inside `chatBusinessDelta`. -/
def chatChoiceBusiness (choice : Json) : Bool :=
  jsTruthy (oget (choice.get? "delta") "content") ∨
  jsTruthy (oget (choice.get? "delta") "reasoning_content") ∨
  nonEmptyArr (oget (choice.get? "delta") "tool_calls")

/-- The `hasBusinessDelta` predicate of the Chat `parseSSEStream`
(chat.ts lines 392-399): some choice whose delta carries content,
reasoning content, or a non-empty `tool_calls` list. -/
def chatBusinessDelta (chunk : Json) : Bool :=
  match chunk.get? "choices" with
  | some (.arr choices) => choices.any chatChoiceBusiness
  | _ => false

/-- The `hasBusinessDelta` predicate of the Responses `parseSSEStream`
(responses.ts lines 450-457): text/reasoning/arguments deltas, or an
`output_item.added` event whose item is a `function_call`. -/
def respBusinessDelta (event : Json) : Bool :=
  (typeIs event "response.output_text.delta" ∧ jsTruthy (event.get? "delta")) ∨
  (typeIs event "response.reasoning_summary_text.delta" ∧ jsTruthy (event.get? "delta")) ∨
  (typeIs event "response.function_call_arguments.delta" ∧ jsTruthy (event.get? "delta")) ∨
  (typeIs event "response.output_item.added" ∧ otypeIs (event.get? "item") "function_call")

/-- The `hasBusinessDelta` predicate of the Gemini decode loop
(gemini.ts lines 653-658): some candidate part carrying text or a
function call. -/
def gemBusinessDelta (chunk : Json) : Bool :=
  match chunk.get? "candidates" with
  | some (.arr cands) =>
    cands.any (fun candidate =>
      match oget (candidate.get? "content") "parts" with
      | some (.arr parts) =>
        parts.any (fun part =>
          jsTruthy (part.get? "text") ∨ jsTruthy (part.get? "functionCall"))
      | _ => false)
  | _ => false

/-- Loop-local mutable state of a decode loop: the `dataCount` and
`lastEventType` diagnostics (tracked by the Anthropic and Chat loops
only) and the number of `guard.touch()` calls made so far. -/
structure SSEState where
  dataCount : Nat
  lastEventType : String
  touches : Nat
deriving Repr, DecidableEq

/-- Initial decode-loop state. -/
def sseInit : SSEState := { dataCount := 0, lastEventType := "", touches := 0 }

/-- Outcome of processing one complete line. -/
inductive SSELineOut where
  | stop : SSELineOut
  | cont (st : SSEState) (evs : List Json) : SSELineOut

/-- Process one complete line of the SSE stream, shared shape of the four
decode loops.  `business` is the adapter's `hasBusinessDelta` predicate,
`recordEvt` is whether the loop tracks `dataCount`/`lastEventType`
(Anthropic and Chat do, Responses and Gemini do not).  A data frame that
fails JSON parsing is logged and dropped. -/
def sseLineStep (business : Json → Bool) (recordEvt : Bool) (st : SSEState)
    (line : List Char) : SSELineOut :=
  let trimmed := trimChars line
  if trimmed = [] ∨ startsWithL trimmed [':'] then .cont st []
  else if isDoneLine trimmed then .stop
  else if startsWithL trimmed "event:".data then
    if recordEvt then
      let evtType :=
        if startsWithL trimmed "event: ".data then String.mk (trimmed.drop 7)
        else String.mk (trimmed.drop 6)
      .cont { st with lastEventType := evtType } []
    else .cont st []
  else if startsWithL trimmed "data:".data then
    let dataStr :=
      if startsWithL trimmed "data: ".data then String.mk (trimmed.drop 6)
      else String.mk (trimmed.drop 5)
    let parseResult := parseJsonWithFix dataStr none
    if parseResult.success then
      match parseResult.data with
      | some event =>
        let st1 := if business event then { st with touches := st.touches + 1 } else st
        let st2 := if recordEvt then { st1 with dataCount := st1.dataCount + 1 } else st1
        .cont st2 [event]
      | none => .cont st []
    else .cont st []
  else .cont st []

/-- Outcome of processing the complete lines of one read. -/
inductive SSEOut where
  | doneEarly (evs : List Json) : SSEOut
  | cont (st : SSEState) (evs : List Json) : SSEOut

/-- Process a run of complete lines; the `[DONE]` sentinel returns from
the generator (Anthropic/Chat/Responses loops). -/
def sseLines (business : Json → Bool) (recordEvt : Bool) :
    SSEState → List (List Char) → SSEOut
  | st, [] => .cont st []
  | st, l :: ls =>
    match sseLineStep business recordEvt st l with
    | .stop => .doneEarly []
    | .cont st1 evs =>
      match sseLines business recordEvt st1 ls with
      | .doneEarly evs2 => .doneEarly (evs ++ evs2)
      | .cont st2 evs2 => .cont st2 (evs ++ evs2)

/-- Process a run of complete lines in the Gemini loop, where the
`[DONE]` sentinel only `break`s out of the per-line `for` loop: the
remaining lines of this read are skipped but the outer read loop
continues. -/
def gemLines : SSEState → List (List Char) → SSEState × List Json
  | st, [] => (st, [])
  | st, l :: ls =>
    match sseLineStep gemBusinessDelta false st l with
    | .stop => (st, [])
    | .cont st1 evs =>
      let (st2, evs2) := gemLines st1 ls
      (st2, evs ++ evs2)

/-- The `while(true)` read loop shared by the Anthropic, Chat and
Responses `parseSSEStream` generators: on end-of-stream with non-blank
residual buffer, raise the adapter's "terminated unexpectedly" error
built by `mkEofErr` from the loop diagnostics and the buffer. -/
def sseRun (business : Json → Bool) (recordEvt : Bool)
    (mkEofErr : SSEState → List Char → Err) :
    SSEState → List Char → List (List Char) → Except Err (List Json)
  | st, buffer, [] =>
    if trimChars buffer ≠ [] then .error (mkEofErr st buffer) else .ok []
  | st, buffer, c :: cs =>
    let parts := splitNl (buffer ++ c)
    let buf1 := parts.getLastD []
    let lines := parts.dropLast
    match sseLines business recordEvt st lines with
    | .doneEarly evs => .ok evs
    | .cont st1 evs =>
      (sseRun business recordEvt mkEofErr st1 buf1 cs).map (evs ++ ·)

/-- End-of-stream error of the Anthropic decode loop (anthropic.ts lines
508-524), with its JSON diagnostic context. -/
def anthEofErr (st : SSEState) (buffer : List Char) : Err :=
  { name := "Error",
    message := "[API_ERROR] [RETRIABLE] Anthropic stream terminated unexpectedly with incomplete data. Context: " ++
      jsonStringify (Json.obj
        [("dataCount", Json.num st.dataCount),
         ("lastEventType", Json.str st.lastEventType),
         ("bufferLength", Json.num buffer.length),
         ("bufferPreview", Json.str (String.mk (buffer.take 200)))]) }

/-- End-of-stream error of the Chat decode loop (chat.ts lines 339-354). -/
def chatEofErr (st : SSEState) (buffer : List Char) : Err :=
  { name := "Error",
    message := "[API_ERROR] [RETRIABLE] OpenAI stream terminated unexpectedly with incomplete data. Context: " ++
      jsonStringify (Json.obj
        [("dataCount", Json.num st.dataCount),
         ("lastEventType", Json.str st.lastEventType),
         ("bufferLength", Json.num buffer.length),
         ("bufferPreview", Json.str (String.mk (buffer.take 200)))]) }

/-- End-of-stream error of the Responses decode loop (responses.ts lines
405-415). -/
def respEofErr (_st : SSEState) (buffer : List Char) : Err :=
  { name := "Error",
    message := "Stream terminated unexpectedly with incomplete data: " ++
      String.mk (buffer.take 100) ++ "..." }

/-- End-of-stream error of the Gemini decode loop (gemini.ts lines
611-618). -/
def gemEofErr (buffer : List Char) : Err :=
  { name := "Error",
    message := "[API_ERROR] [RETRIABLE] Gemini stream terminated unexpectedly with incomplete data: " ++
      String.mk (buffer.take 100) ++ "..." }

/-- The Anthropic `parseSSEStream` over the decoded reads. -/
def anthParseSSE (chunks : List (List Char)) : Except Err (List Json) :=
  sseRun anthBusinessDelta true anthEofErr sseInit [] chunks

/-- The Chat `parseSSEStream` over the decoded reads. -/
def chatParseSSE (chunks : List (List Char)) : Except Err (List Json) :=
  sseRun chatBusinessDelta true chatEofErr sseInit [] chunks

/-- The Responses `parseSSEStream` over the decoded reads. -/
def respParseSSE (chunks : List (List Char)) : Except Err (List Json) :=
  sseRun respBusinessDelta false respEofErr sseInit [] chunks

/-- The Gemini inline decode loop over the decoded reads (gemini.ts lines
591-746); the `[DONE]` sentinel never leaves the outer read loop. -/
def gemRun : SSEState → List Char → List (List Char) → Except Err (List Json)
  | _, buffer, [] =>
    if trimChars buffer ≠ [] then .error (gemEofErr buffer) else .ok []
  | st, buffer, c :: cs =>
    let parts := splitNl (buffer ++ c)
    let buf1 := parts.getLastD []
    let lines := parts.dropLast
    let (st1, evs) := gemLines st lines
    (gemRun st1 buf1 cs).map (evs ++ ·)

/-- The Gemini decode loop from a fresh state. -/
def gemParseSSE (chunks : List (List Char)) : Except Err (List Json) :=
  gemRun sseInit [] chunks

/-- The full decoded text of a stream: concatenation of its reads. -/
def joinChunks : List (List Char) → List Char
  | [] => []
  | c :: cs => c ++ joinChunks cs

/-! ## Unified stream events and shared adapter types -/

/-- A tool call record as assembled by the adapters (`id`, `type:
'function'`, function name, JSON-encoded arguments, and Gemini's optional
`thoughtSignature`). -/
structure ToolCall where
  id : String
  name : String
  arguments : String
  thoughtSignature : Option Json := none
deriving Repr

/-- The `UsageInfo` record assembled by the adapters. -/
structure UsageInfo where
  prompt_tokens : Int
  completion_tokens : Int
  total_tokens : Int
  cache_creation_input_tokens : Option Int := none
  cache_read_input_tokens : Option Int := none
  cached_tokens : Option Int := none
deriving Repr, DecidableEq

/-- An assembled thinking block (Anthropic carries a signature, Gemini
does not). -/
structure ThinkingBlock where
  thinking : String
  signature : Option String := none
deriving Repr, DecidableEq

/-- The unified stream events yielded by the four adapter generators.
`done` carries the Anthropic/Gemini thinking block or the Chat adapter's
accumulated `reasoning_content`; `reasoning_data` is the Responses
adapter's captured reasoning object. -/
inductive UEvent where
  | content (text : String) : UEvent
  | reasoning_started : UEvent
  | reasoning_delta (delta : String) : UEvent
  | tool_call_delta (delta : String) : UEvent
  | tool_calls (calls : List ToolCall) : UEvent
  | usage (u : UsageInfo) : UEvent
  | reasoning_data (summary content encrypted : Option Json) : UEvent
  | done (thinking : Option ThinkingBlock) (reasoning_content : Option String) : UEvent
deriving Repr

/-- JS `Map.set`: update in place keeping the entry's position, append a
new key at the end (JS Maps preserve insertion order). -/
def mapSet {α β : Type} [DecidableEq α] (m : List (α × β)) (k : α) (v : β) :
    List (α × β) :=
  match m with
  | [] => [(k, v)]
  | (k', v') :: rest => if k' = k then (k, v) :: rest else (k', v') :: mapSet rest k v

/-- JS `Map.get`. -/
def mapGet {α β : Type} [DecidableEq α] (m : List (α × β)) (k : α) : Option β :=
  match m with
  | [] => none
  | (k', v') :: rest => if k' = k then some v' else mapGet rest k

/-- JS `Set.add` (insertion-ordered, deduplicating). -/
def setAdd (s : List String) (x : String) : List String :=
  if s.contains x then s else s ++ [x]

/-- JS `a || b`. -/
def jsOr (a b : Option Json) : Option Json := if jsTruthy a then a else b

/-- Optional numeric read (a field assigned raw, which may be absent). -/
def jsNumOpt (o : Option Json) : Option Int := o.map (fun j => jsNum (some j))

/-- Match one `</parameter...>` / `<parameter...>` tag at the head of the
list (the regex `<\/?parameter[^>]*>`); returns the rest after the tag. -/
def paramTagAt (cs : List Char) : Option (List Char) :=
  match cs with
  | '<' :: r1 =>
    let r2 := match r1 with
      | '/' :: t => t
      | _ => r1
    if startsWithL r2 "parameter".data then
      let r3 := r2.drop 9
      let (_, r4) := takeWhileL (fun c => c ≠ '>') r3
      match r4 with
      | '>' :: r5 => some r5
      | _ => none
    else none
  | _ => none

/-- Global removal of `<\/?parameter[^>]*>` tags (anthropic.ts lines
864-869). -/
def stripParamTags : Nat → List Char → List Char
  | 0, cs => cs
  | _ + 1, [] => []
  | fuel + 1, c :: cs =>
    match paramTagAt (c :: cs) with
    | some rest => stripParamTags fuel rest
    | none => c :: stripParamTags fuel cs

/-! ## Anthropic adapter state machine
(src/source/api/anthropic.ts, `createStreamingAnthropicCompletion`,
lines 768-1005) -/

/-- Per-attempt mutable state of the Anthropic adapter loop. -/
structure AnthState where
  contentBuffer : String
  thinkingTextBuffer : String
  thinkingSignature : String
  toolCallsBuffer : List (String × ToolCall)
  hasToolCalls : Bool
  usageData : Option UsageInfo
  blockIndexToId : List (Int × String)
  blockIndexToType : List (Int × String)
  completedToolBlocks : List String
deriving Repr

/-- Fresh Anthropic adapter state. -/
def anthInit : AnthState :=
  { contentBuffer := "", thinkingTextBuffer := "", thinkingSignature := "",
    toolCallsBuffer := [], hasToolCalls := false, usageData := none,
    blockIndexToId := [], blockIndexToType := [], completedToolBlocks := [] }

/-- Dispatch of one parsed SSE event in the Anthropic adapter loop
(anthropic.ts lines 794-932), returning the updated state and the events
yielded. -/
def anthStep (st : AnthState) (event : Json) : AnthState × List UEvent :=
  if typeIs event "content_block_start" then
    let block := event.get? "content_block"
    let blockIndex := jsNum (event.get? "index")
    let st := { st with blockIndexToType := mapSet st.blockIndexToType blockIndex (jsStr (oget block "type")) }
    if otypeIs block "tool_use" then
      let id := jsStr (oget block "id")
      let name := jsStr (oget block "name")
      let tc : ToolCall := { id := id, name := name, arguments := "" }
      let st := { st with
        hasToolCalls := true,
        blockIndexToId := mapSet st.blockIndexToId blockIndex id,
        toolCallsBuffer := mapSet st.toolCallsBuffer id tc }
      (st, [.tool_call_delta name])
    else if otypeIs block "thinking" then
      (st, [.reasoning_started])
    else (st, [])
  else if typeIs event "content_block_delta" then
    let delta := event.get? "delta"
    let (st, evs1) :=
      if otypeIs delta "text_delta" then
        let text := jsStr (oget delta "text")
        ({ st with contentBuffer := st.contentBuffer ++ text }, [UEvent.content text])
      else (st, [])
    let (st, evs2) :=
      if otypeIs delta "thinking_delta" then
        let thinkingText := jsStr (oget delta "thinking")
        ({ st with thinkingTextBuffer := st.thinkingTextBuffer ++ thinkingText },
         [UEvent.reasoning_delta thinkingText])
      else (st, [])
    let st :=
      if otypeIs delta "signature_delta" then
        { st with thinkingSignature := st.thinkingSignature ++ jsStr (oget delta "signature") }
      else st
    let (st, evs3) :=
      if otypeIs delta "input_json_delta" then
        let jsonDelta := jsStr (oget delta "partial_json")
        let blockIndex := jsNum (event.get? "index")
        match mapGet st.blockIndexToId blockIndex with
        | some toolId =>
          match mapGet st.toolCallsBuffer toolId with
          | some toolCall =>
            let cleanedDelta := String.mk (stripParamTags jsonDelta.data.length jsonDelta.data)
            if cleanedDelta ≠ "" then
              let tc2 : ToolCall :=
                { toolCall with arguments := toolCall.arguments ++ cleanedDelta }
              ({ st with toolCallsBuffer := mapSet st.toolCallsBuffer toolId tc2 },
               [UEvent.tool_call_delta cleanedDelta])
            else (st, [])
          | none => (st, [])
        | none => (st, [])
      else (st, [])
    (st, evs1 ++ evs2 ++ evs3)
  else if typeIs event "content_block_stop" then
    let blockIndex := jsNum (event.get? "index")
    match mapGet st.blockIndexToId blockIndex with
    | some toolId => ({ st with completedToolBlocks := setAdd st.completedToolBlocks toolId }, [])
    | none => (st, [])
  else if typeIs event "message_start" then
    let u := oget (event.get? "message") "usage"
    if jsTruthy u then
      let it := jsNum (oget u "input_tokens")
      let ot := jsNum (oget u "output_tokens")
      let ud : UsageInfo :=
        { prompt_tokens := it, completion_tokens := ot, total_tokens := it + ot,
          cache_creation_input_tokens := jsNumOpt (oget u "cache_creation_input_tokens"),
          cache_read_input_tokens := jsNumOpt (oget u "cache_read_input_tokens") }
      ({ st with usageData := some ud }, [])
    else (st, [])
  else if typeIs event "message_delta" then
    let u := event.get? "usage"
    if jsTruthy u then
      let zeroUsage : UsageInfo :=
        { prompt_tokens := 0, completion_tokens := 0, total_tokens := 0 }
      let base := st.usageData.getD zeroUsage
      let base :=
        if (oget u "input_tokens").isSome then
          { base with prompt_tokens := jsNum (oget u "input_tokens") }
        else base
      let base := { base with completion_tokens := jsNum (oget u "output_tokens") }
      let base := { base with total_tokens := base.prompt_tokens + base.completion_tokens }
      let base :=
        if (oget u "cache_creation_input_tokens").isSome then
          { base with cache_creation_input_tokens := jsNumOpt (oget u "cache_creation_input_tokens") }
        else base
      let base :=
        if (oget u "cache_read_input_tokens").isSome then
          { base with cache_read_input_tokens := jsNumOpt (oget u "cache_read_input_tokens") }
        else base
      ({ st with usageData := some base }, [])
    else (st, [])
  else (st, [])

/-- The Anthropic adapter's event loop (`for await (const event of
parseSSEStream(...))`). -/
def anthLoop : AnthState → List Json → AnthState × List UEvent
  | st, [] => (st, [])
  | st, e :: es =>
    let (st1, evs) := anthStep st e
    let (st2, evs2) := anthLoop st1 es
    (st2, evs ++ evs2)

/-- Normalisation of one assembled tool call's argument text at stream
end (anthropic.ts lines 937-944): trim, and replace an empty argument
string by `'{}'`.  The completed and interrupted branches of the source
then perform the same repair and differ only in logging. -/
def anthArgsInput (toolCall : ToolCall) : String :=
  let args := trimStr toolCall.arguments
  if args = "" then "\x7b\x7d" else args

/-- Re-serialisation of one assembled tool call: run `parseJsonWithFix`
on the normalised argument text with fallback `{}` and re-serialise the
parsed (or fallback) value. -/
def normalizeAnthArgs (toolCall : ToolCall) : ToolCall :=
  let parseResult := parseJsonWithFix (anthArgsInput toolCall) (some (Json.obj []))
  { toolCall with arguments := jsonStringify (parseResult.data.getD (Json.obj [])) }

/-- Finalisation of the Anthropic adapter after the event loop
(anthropic.ts lines 935-1005): the `tool_calls`, `usage` and `done`
events, in that order. -/
def anthFinalize (st : AnthState) : List UEvent :=
  (if st.hasToolCalls ∧ ¬ st.toolCallsBuffer.isEmpty then
    [UEvent.tool_calls ((st.toolCallsBuffer.map (·.2)).map normalizeAnthArgs)]
  else []) ++
  (match st.usageData with
   | some u => [UEvent.usage u]
   | none => []) ++
  [UEvent.done
    (if st.thinkingTextBuffer ≠ "" then
      some { thinking := st.thinkingTextBuffer,
             signature := if st.thinkingSignature ≠ "" then some st.thinkingSignature else none }
    else none)
    none]

/-- The Anthropic adapter body over the parsed SSE events of one
successful attempt. -/
def anthropicAdapter (events : List Json) : List UEvent :=
  let (st, evs) := anthLoop anthInit events
  evs ++ anthFinalize st

/-! ## OpenAI Chat adapter state machine
(src/source/api/chat.ts, `createStreamingChatCompletion`, lines 438-700) -/

/-- Per-attempt mutable state of the Chat adapter loop. -/
structure ChatState where
  contentBuffer : String
  toolCallsBuffer : List (Nat × ToolCall)
  hasToolCalls : Bool
  usageData : Option UsageInfo
  reasoningStarted : Bool
  reasoningContentBuffer : String
deriving Repr

/-- Fresh Chat adapter state. -/
def chatInit : ChatState :=
  { contentBuffer := "", toolCallsBuffer := [], hasToolCalls := false,
    usageData := none, reasoningStarted := false, reasoningContentBuffer := "" }

/-- One `deltaCall` of a `delta.tool_calls` array (chat.ts lines 625-662):
ensure the indexed accumulator exists, merge id/name/arguments fragments,
and emit a `tool_call_delta` when any function text arrived. -/
def chatToolStep (st : ChatState) (deltaCall : Json) : ChatState × List UEvent :=
  let index :=
    match deltaCall.get? "index" with
    | some (.num n) => n.toNat
    | _ => 0
  let st :=
    if (mapGet st.toolCallsBuffer index).isNone then
      let tc : ToolCall := { id := "", name := "", arguments := "" }
      { st with toolCallsBuffer := mapSet st.toolCallsBuffer index tc }
    else st
  let tc := (mapGet st.toolCallsBuffer index).getD { id := "", name := "", arguments := "" }
  let tc :=
    if jsTruthy (deltaCall.get? "id") then { tc with id := jsStr (deltaCall.get? "id") }
    else tc
  let fObj := deltaCall.get? "function"
  let (tc, deltaText) :=
    if jsTruthy (oget fObj "name") then
      let n := jsStr (oget fObj "name")
      ({ tc with name := tc.name ++ n }, n)
    else (tc, "")
  let (tc, deltaText) :=
    if jsTruthy (oget fObj "arguments") then
      let a := jsStr (oget fObj "arguments")
      ({ tc with arguments := tc.arguments ++ a }, deltaText ++ a)
    else (tc, deltaText)
  let st := { st with toolCallsBuffer := mapSet st.toolCallsBuffer index tc }
  (st, if deltaText ≠ "" then [UEvent.tool_call_delta deltaText] else [])

/-- Fold `chatToolStep` over the `delta.tool_calls` array. -/
def chatToolLoop : ChatState → List Json → ChatState × List UEvent
  | st, [] => (st, [])
  | st, dc :: dcs =>
    let (st1, evs) := chatToolStep st dc
    let (st2, evs2) := chatToolLoop st1 dcs
    (st2, evs ++ evs2)

/-- Dispatch of one parsed chunk in the Chat adapter loop (chat.ts lines
571-668): capture usage, then process `choices[0]`'s content, reasoning
and tool-call deltas; the returned flag is the `break` on a truthy
`finish_reason`. -/
def chatStep (st : ChatState) (chunk : Json) : ChatState × List UEvent × Bool :=
  -- usage capture: `usageValue !== null && usageValue !== undefined`
  let st :=
    match chunk.get? "usage" with
    | some .null => st
    | some u =>
      let ud : UsageInfo :=
        { prompt_tokens := jsNum (u.get? "prompt_tokens"),
          completion_tokens := jsNum (u.get? "completion_tokens"),
          total_tokens := jsNum (u.get? "total_tokens"),
          cached_tokens := jsNumOpt (oget (u.get? "prompt_tokens_details") "cached_tokens") }
      { st with usageData := some ud }
    | none => st
  match (match chunk.get? "choices" with
         | some (.arr (c :: _)) => some c
         | _ => none) with
  | none => (st, [], false)
  | some choice =>
    let delta := choice.get? "delta"
    let (st, evs1) :=
      if jsTruthy (oget delta "content") then
        let content := jsStr (oget delta "content")
        ({ st with contentBuffer := st.contentBuffer ++ content }, [UEvent.content content])
      else (st, [])
    let (st, evs2) :=
      if jsTruthy (oget delta "reasoning_content") then
        let rc := jsStr (oget delta "reasoning_content")
        let st := { st with reasoningContentBuffer := st.reasoningContentBuffer ++ rc }
        if ¬ st.reasoningStarted then
          ({ st with reasoningStarted := true },
           [UEvent.reasoning_started, UEvent.reasoning_delta rc])
        else (st, [UEvent.reasoning_delta rc])
      else (st, [])
    let (st, evs3) :=
      match oget delta "tool_calls" with
      | some (.arr dcs) =>
        -- `if (deltaToolCalls)`: an array (even empty) is truthy
        chatToolLoop { st with hasToolCalls := true } dcs
      | some v =>
        if jsTruthy (some v) then ({ st with hasToolCalls := true }, []) else (st, [])
      | none => (st, [])
    (st, evs1 ++ evs2 ++ evs3, jsTruthy (choice.get? "finish_reason"))

/-- The Chat adapter's chunk loop, stopping at a truthy `finish_reason`. -/
def chatLoop : ChatState → List Json → ChatState × List UEvent
  | st, [] => (st, [])
  | st, c :: cs =>
    match chatStep st c with
    | (st1, evs, true) => (st1, evs)
    | (st1, evs, false) =>
      let (st2, evs2) := chatLoop st1 cs
      (st2, evs ++ evs2)

/-- Ascending-key values of a JS object keyed by array indices
(`Object.values(toolCallsBuffer)`: integer-like keys iterate in ascending
numeric order). -/
def insertByKey (p : Nat × ToolCall) : List (Nat × ToolCall) → List (Nat × ToolCall)
  | [] => [p]
  | q :: qs => if p.1 < q.1 then p :: q :: qs else q :: insertByKey p qs

/-- Sort an index-keyed accumulator ascending and project the values. -/
def objValuesNat (m : List (Nat × ToolCall)) : List ToolCall :=
  (m.foldl (fun acc p => insertByKey p acc) []).map (·.2)

/-- Finalisation of the Chat adapter (chat.ts lines 670-693):
`tool_calls` (if any were seen), `usage` (if captured), then `done` with
the accumulated reasoning content. -/
def chatFinalize (st : ChatState) : List UEvent :=
  (if st.hasToolCalls then [UEvent.tool_calls (objValuesNat st.toolCallsBuffer)] else []) ++
  (match st.usageData with
   | some u => [UEvent.usage u]
   | none => []) ++
  [UEvent.done none
    (if st.reasoningContentBuffer ≠ "" then some st.reasoningContentBuffer else none)]

/-- The Chat adapter body over the parsed chunks of one successful
attempt. -/
def chatAdapter (chunks : List Json) : List UEvent :=
  let (st, evs) := chatLoop chatInit chunks
  evs ++ chatFinalize st

/-! ## OpenAI Responses adapter state machine
(src/source/api/responses.ts, `createStreamingResponse`, lines 484-811) -/

/-- Per-attempt mutable state of the Responses adapter loop.
`currentFunctionCallId` holds the raw `item.call_id || item.id` value
(`none` models both the initial `null` and the reset after an
`arguments.done` event). -/
structure RespState where
  contentBuffer : String
  toolCallsBuffer : List (String × ToolCall)
  hasToolCalls : Bool
  currentFunctionCallId : Option Json
  usageData : Option UsageInfo
  reasoningData : Option (Option Json × Option Json × Option Json)
deriving Repr

/-- Fresh Responses adapter state. -/
def respInit : RespState :=
  { contentBuffer := "", toolCallsBuffer := [], hasToolCalls := false,
    currentFunctionCallId := none, usageData := none, reasoningData := none }

/-- The `TypeError` raised when `toolCallsBuffer[currentFunctionCallId]`
is accessed while absent (responses.ts line 684). -/
def respTypeErr : Err :=
  { name := "TypeError", message := "Cannot read properties of undefined" }

/-- Dispatch of one parsed event in the Responses adapter loop
(responses.ts lines 639-773).  Returns the updated state, the events
yielded, and whether the loop `break`s; `response.failed`/`cancelled`
events with a truthy error object throw. -/
def respStepB (st : RespState) (chunk : Json) : Except Err (RespState × List UEvent × Bool) :=
  if typeIs chunk "response.content_part.added" then .ok (st, [], false)
  else if typeIs chunk "response.reasoning_summary_text.delta" then
    let delta := chunk.get? "delta"
    if jsTruthy delta then .ok (st, [UEvent.reasoning_delta (jsStr delta)], false)
    else .ok (st, [], false)
  else if typeIs chunk "response.output_text.delta" then
    let delta := chunk.get? "delta"
    if jsTruthy delta then
      .ok ({ st with contentBuffer := st.contentBuffer ++ jsStr delta },
           [UEvent.content (jsStr delta)], false)
    else .ok (st, [], false)
  else if typeIs chunk "response.output_text.done" then .ok (st, [], false)
  else if typeIs chunk "response.content_part.done" then .ok (st, [], false)
  else if typeIs chunk "response.completed" then
    let st :=
      if jsTruthy (chunk.get? "response") ∧ jsTruthy (oget (chunk.get? "response") "usage") then
        let u := oget (chunk.get? "response") "usage"
        let ud : UsageInfo :=
          { prompt_tokens := jsNum (oget u "input_tokens"),
            completion_tokens := jsNum (oget u "output_tokens"),
            total_tokens := jsNum (oget u "total_tokens"),
            cached_tokens := jsNumOpt (oget (oget u "input_tokens_details") "cached_tokens") }
        { st with usageData := some ud }
      else st
    .ok (st, [], true)
  else if typeIs chunk "response.failed" ∨ typeIs chunk "response.cancelled" then
    let errorObj := chunk.get? "error"
    if jsTruthy errorObj then
      .error { name := "Error",
               message := "Response failed: " ++
                 (if jsTruthy (oget errorObj "message") then jsStr (oget errorObj "message")
                  else "Unknown error") }
    else .ok (st, [], true)
  else .ok (st, [], false)

def respStep (st : RespState) (chunk : Json) : Except Err (RespState × List UEvent × Bool) :=
  if typeIs chunk "response.created" ∨ typeIs chunk "response.in_progress" then
    .ok (st, [], false)
  else if typeIs chunk "response.output_item.added" then
    let item := chunk.get? "item"
    if otypeIs item "reasoning" then .ok (st, [UEvent.reasoning_started], false)
    else if otypeIs item "message" then .ok (st, [], false)
    else if otypeIs item "function_call" then
      let callId := jsOr (oget item "call_id") (oget item "id")
      let tc : ToolCall :=
        { id := jsStr callId,
          name := if jsTruthy (oget item "name") then jsStr (oget item "name") else "",
          arguments := "" }
      .ok ({ st with
              hasToolCalls := true,
              currentFunctionCallId := callId,
              toolCallsBuffer := mapSet st.toolCallsBuffer (jsStr callId) tc }, [], false)
    else .ok (st, [], false)
  else if typeIs chunk "response.function_call_arguments.delta" then
    let delta := chunk.get? "delta"
    if jsTruthy delta ∧ jsTruthy st.currentFunctionCallId then
      let key := jsStr st.currentFunctionCallId
      match mapGet st.toolCallsBuffer key with
      | some tc =>
        let tc2 : ToolCall := { tc with arguments := tc.arguments ++ jsStr delta }
        .ok ({ st with toolCallsBuffer := mapSet st.toolCallsBuffer key tc2 },
             [UEvent.tool_call_delta (jsStr delta)], false)
      | none => .error respTypeErr
    else .ok (st, [], false)
  else if typeIs chunk "response.function_call_arguments.done" then
    let itemId := chunk.get? "item_id"
    let st :=
      if jsTruthy itemId then
        match mapGet st.toolCallsBuffer (jsStr itemId) with
        | some tc =>
          let tc2 : ToolCall := { tc with arguments := jsStr (chunk.get? "arguments") }
          { st with toolCallsBuffer := mapSet st.toolCallsBuffer (jsStr itemId) tc2 }
        | none => st
      else st
    .ok ({ st with currentFunctionCallId := none }, [], false)
  else if typeIs chunk "response.output_item.done" then
    let item := chunk.get? "item"
    if otypeIs item "function_call" then
      let callId := jsOr (oget item "call_id") (oget item "id")
      match mapGet st.toolCallsBuffer (jsStr callId) with
      | some tc =>
        let tc2 : ToolCall :=
          { tc with name := jsStr (oget item "name"),
                    arguments := jsStr (oget item "arguments") }
        .ok ({ st with toolCallsBuffer := mapSet st.toolCallsBuffer (jsStr callId) tc2 },
             [], false)
      | none => .ok (st, [], false)
    else if otypeIs item "reasoning" then
      let rd := (oget item "summary", oget item "content", oget item "encrypted_content")
      .ok ({ st with reasoningData := some rd }, [], false)
    else .ok (st, [], false)
  else respStepB st chunk

/-- The Responses adapter's event loop. -/
def respLoop : RespState → List Json → Except Err (RespState × List UEvent)
  | st, [] => .ok (st, [])
  | st, c :: cs =>
    match respStep st c with
    | .error e => .error e
    | .ok (st1, evs, true) => .ok (st1, evs)
    | .ok (st1, evs, false) =>
      match respLoop st1 cs with
      | .error e => .error e
      | .ok (st2, evs2) => .ok (st2, evs ++ evs2)

/-- Finalisation of the Responses adapter (responses.ts lines 776-805):
`tool_calls`, captured `reasoning_data`, `usage`, then `done`.
`Object.values` on the call-id-keyed buffer iterates in insertion order
for the non-numeric call-id keys used here. -/
def respFinalize (st : RespState) : List UEvent :=
  (if st.hasToolCalls then [UEvent.tool_calls (st.toolCallsBuffer.map (·.2))] else []) ++
  (match st.reasoningData with
   | some (s, c, e) => [UEvent.reasoning_data s c e]
   | none => []) ++
  (match st.usageData with
   | some u => [UEvent.usage u]
   | none => []) ++
  [UEvent.done none none]

/-- The Responses adapter body: the loop's yields followed by
finalisation, or the raised error. -/
def responsesAdapter (chunks : List Json) : Except Err (List UEvent) :=
  match respLoop respInit chunks with
  | .error e => .error e
  | .ok (st, evs) => .ok (evs ++ respFinalize st)

/-! ## Gemini adapter state machine
(src/source/api/gemini.ts, `createStreamingGeminiCompletion`, lines
557-795; the part/usage processing inlined in its decode loop) -/

/-- Per-attempt mutable state of the Gemini adapter.  `totalTokens` is the
`{prompt, completion, total}` record updated from `usageMetadata`. -/
structure GemState where
  contentBuffer : String
  thinkingTextBuffer : String
  sharedThoughtSignature : Option Json
  toolCallsBuffer : List ToolCall
  hasToolCalls : Bool
  toolCallIndex : Nat
  totalPrompt : Int
  totalCompletion : Int
  totalTotal : Int
deriving Repr

/-- Fresh Gemini adapter state. -/
def gemInit : GemState :=
  { contentBuffer := "", thinkingTextBuffer := "", sharedThoughtSignature := none,
    toolCallsBuffer := [], hasToolCalls := false, toolCallIndex := 0,
    totalPrompt := 0, totalCompletion := 0, totalTotal := 0 }

/-- Is `part.thought === true`? -/
def thoughtIsTrue (part : Json) : Bool :=
  match part.get? "thought" with
  | some (.bool true) => true
  | _ => false

/-- Text/thought processing of one `candidates[0].content.parts[]`
element (gemini.ts lines 667-688). -/
def gemPartText (st : GemState) (part : Json) : GemState × List UEvent :=
  if thoughtIsTrue part ∧ jsTruthy (part.get? "text") then
    let text := jsStr (part.get? "text")
    ({ st with thinkingTextBuffer := st.thinkingTextBuffer ++ text },
     [UEvent.reasoning_delta text])
  else if jsTruthy (part.get? "text") then
    let text := jsStr (part.get? "text")
    ({ st with contentBuffer := st.contentBuffer ++ text }, [UEvent.content text])
  else (st, [])

/-- Function-call processing of one part, after the text handling
(gemini.ts lines 690-731). -/
def gemPartStep (st : GemState) (part : Json) : GemState × List UEvent :=
  let (st, evs1) := gemPartText st part
  if jsTruthy (part.get? "functionCall") then
    let fc := part.get? "functionCall"
    let argsJson :=
      match jsOr (oget fc "args") (some (Json.obj [])) with
      | some a => a
      | none => Json.obj []
    let partSignature := jsOr (part.get? "thoughtSignature") (part.get? "thought_signature")
    let (st, sigField) :=
      if jsTruthy partSignature then
        let st :=
          if ¬ jsTruthy st.sharedThoughtSignature then
            { st with sharedThoughtSignature := partSignature }
          else st
        (st, partSignature)
      else if jsTruthy st.sharedThoughtSignature then (st, st.sharedThoughtSignature)
      else (st, none)
    let tc : ToolCall :=
      { id := "call_" ++ toString st.toolCallIndex,
        name := jsStr (oget fc "name"),
        arguments := jsonStringify argsJson,
        thoughtSignature := sigField }
    let st := { st with
      hasToolCalls := true,
      toolCallIndex := st.toolCallIndex + 1,
      toolCallsBuffer := st.toolCallsBuffer ++ [tc] }
    (st, evs1 ++ [UEvent.tool_call_delta (jsStr (oget fc "name") ++ jsonStringify argsJson)])
  else (st, evs1)

/-- Fold `gemPartStep` over a parts array. -/
def gemPartsLoop : GemState → List Json → GemState × List UEvent
  | st, [] => (st, [])
  | st, p :: ps =>
    let (st1, evs) := gemPartStep st p
    let (st2, evs2) := gemPartsLoop st1 ps
    (st2, evs ++ evs2)

/-- Processing of the `candidates[0].content.parts` of one parsed chunk
in the Gemini loop (gemini.ts lines 663-733). -/
def gemCandidatesStep (st : GemState) (chunk : Json) : GemState × List UEvent :=
  match chunk.get? "candidates" with
  | some (.arr (candidate :: _)) =>
    if jsTruthy (candidate.get? "content") ∧
        jsTruthy (oget (candidate.get? "content") "parts") then
      match oget (candidate.get? "content") "parts" with
      | some (.arr parts) => gemPartsLoop st parts
      | _ => (st, [])
    else (st, [])
  | _ => (st, [])

/-- Usage-metadata capture after the candidates processing (gemini.ts
lines 736-742). -/
def gemChunkStep (st : GemState) (chunk : Json) : GemState × List UEvent :=
  let (st, evs) := gemCandidatesStep st chunk
  if jsTruthy (chunk.get? "usageMetadata") then
    let um := chunk.get? "usageMetadata"
    ({ st with
        totalPrompt := jsNum (oget um "promptTokenCount"),
        totalCompletion := jsNum (oget um "candidatesTokenCount"),
        totalTotal := jsNum (oget um "totalTokenCount") }, evs)
  else (st, evs)

/-- The Gemini adapter's chunk loop. -/
def gemLoop : GemState → List Json → GemState × List UEvent
  | st, [] => (st, [])
  | st, c :: cs =>
    let (st1, evs) := gemChunkStep st c
    let (st2, evs2) := gemLoop st1 cs
    (st2, evs ++ evs2)

/-- Finalisation of the Gemini adapter (gemini.ts lines 758-795):
`tool_calls`, `usage` (only when `totalTokens.total > 0`), then `done`
with the thinking block (no signature field). -/
def gemFinalize (st : GemState) : List UEvent :=
  (if st.hasToolCalls ∧ ¬ st.toolCallsBuffer.isEmpty then
    [UEvent.tool_calls st.toolCallsBuffer]
  else []) ++
  (if st.totalTotal > 0 then
    [UEvent.usage { prompt_tokens := st.totalPrompt,
                    completion_tokens := st.totalCompletion,
                    total_tokens := st.totalTotal }]
  else []) ++
  [UEvent.done
    (if st.thinkingTextBuffer ≠ "" then some { thinking := st.thinkingTextBuffer } else none)
    none]

/-- The Gemini adapter body over the parsed chunks of one successful
attempt. -/
def geminiAdapter (chunks : List Json) : List UEvent :=
  let (st, evs) := gemLoop gemInit chunks
  evs ++ gemFinalize st

/-! ## Theorems -/

/-- C6: `parseJsonWithFix` applied to any already-valid JSON text returns
`success = true` with `wasFixed` falsy and the directly parsed value; and
each individual synthetic malformation — a trailing comma before a
closing brace, an unquoted object key, a missing closing brace, an extra
closing brace — yields a successfully parsed value with
`wasFixed = true`. -/
theorem claimC6 :
    (∀ (s : String) (v : Json) (fb : Option Json), jsonParse s = some v →
      (parseJsonWithFix s fb).success = true ∧
      (parseJsonWithFix s fb).wasFixed = false ∧
      (parseJsonWithFix s fb).data = some v) ∧
    ((parseJsonWithFix "\x7b\"a\":1,\x7d" none).success = true ∧
      (parseJsonWithFix "\x7b\"a\":1,\x7d" none).wasFixed = true ∧
      (parseJsonWithFix "\x7b\"a\":1,\x7d" none).data = some (Json.obj [("a", Json.num 1)])) ∧
    ((parseJsonWithFix "\x7ba:1\x7d" none).success = true ∧
      (parseJsonWithFix "\x7ba:1\x7d" none).wasFixed = true ∧
      (parseJsonWithFix "\x7ba:1\x7d" none).data = some (Json.obj [("a", Json.num 1)])) ∧
    ((parseJsonWithFix "\x7b\"a\":1" none).success = true ∧
      (parseJsonWithFix "\x7b\"a\":1" none).wasFixed = true ∧
      (parseJsonWithFix "\x7b\"a\":1" none).data = some (Json.obj [("a", Json.num 1)])) ∧
    ((parseJsonWithFix "\x7b\"a\":1\x7d\x7d" none).success = true ∧
      (parseJsonWithFix "\x7b\"a\":1\x7d\x7d" none).wasFixed = true ∧
      (parseJsonWithFix "\x7b\"a\":1\x7d\x7d" none).data = some (Json.obj [("a", Json.num 1)])) := by
  refine ⟨?_, ⟨rfl, rfl, rfl⟩, ⟨rfl, rfl, rfl⟩, ⟨rfl, rfl, rfl⟩, ⟨rfl, rfl, rfl⟩⟩
  intro s v fb h
  unfold parseJsonWithFix
  rw [h]
  exact ⟨rfl, rfl, rfl⟩

/-- Witness for C6: the universal part applied to the concrete valid text
`{"a":1}`. -/
theorem claimC6_witness :
    (parseJsonWithFix "\x7b\"a\":1\x7d" none).success = true ∧
    (parseJsonWithFix "\x7b\"a\":1\x7d" none).wasFixed = false ∧
    (parseJsonWithFix "\x7b\"a\":1\x7d" none).data = some (Json.obj [("a", Json.num 1)]) :=
  claimC6.1 "\x7b\"a\":1\x7d" (Json.obj [("a", Json.num 1)]) none rfl

/-- Run of `withRetryGo` over a window of failing attempts followed by a
success: invocations `attempt, …, N-1`, where every invocation before
`N-1` fails with a retriable, non-abort error and invocation `N-1`
succeeds. -/
theorem withRetryGo_window {T : Type} (ops : Nat → Except Err T) (errs : Nat → Err)
    (v : T) (N maxRetries baseDelay : Nat)
    (hfail : ∀ i, i < N - 1 → ops i = .error (errs i))
    (hret : ∀ i, i < N - 1 → isRetriableError (errs i) = true)
    (habort : ∀ i, i < N - 1 → isAbortShaped (errs i) = false)
    (hok : ops (N - 1) = .ok v)
    (hmax : N ≤ maxRetries) (hN : 1 ≤ N) :
    ∀ (fuel attempt : Nat) (le : Option Err), attempt ≤ N - 1 →
      maxRetries + 1 ≤ attempt + fuel →
      withRetryGo ops maxRetries baseDelay le attempt fuel =
        { result := .ok v,
          onRetryCalls := (List.range' attempt (N - 1 - attempt)).map
            (fun k => (errs k, k + 1, baseDelay * 2 ^ k)),
          calls := N - attempt } := by
  intro fuel
  induction fuel with
  | zero => intro attempt le hatt hfuel; omega
  | succ fuel ih =>
    intro attempt le hatt hfuel
    by_cases hlast : attempt = N - 1
    · subst hlast
      simp only [withRetryGo, hok]
      have : N - 1 - (N - 1) = 0 := by omega
      rw [this]
      simp only [List.range', List.map_nil]
      congr 1
      omega
    · have hlt : attempt < N - 1 := by omega
      have hnotmax : ¬ maxRetries ≤ attempt := by omega
      simp only [withRetryGo, hfail attempt hlt, habort attempt hlt, hret attempt hlt,
        hnotmax]
      rw [if_neg (by simp), if_neg (by simp), if_neg (by simp)]
      rw [ih (attempt + 1) (some (errs attempt)) (by omega) (by omega)]
      have hrange : N - 1 - attempt = (N - 1 - (attempt + 1)) + 1 := by omega
      rw [hrange, List.range'_succ]
      simp only [List.map_cons]
      congr 1
      omega

/-- C3: an operation wrapped by `withRetry` that fails with a
retriable-classified (non-abort) error on each of its first `N - 1`
invocations and succeeds on invocation `N`, with `maxRetries ≥ N`,
returns the success value; the `onRetry` observer is invoked exactly
`N - 1` times with delays `baseDelay * 2 ^ attempt`, which are strictly
increasing for a positive base delay. -/
theorem claimC3 {T : Type} (ops : Nat → Except Err T) (errs : Nat → Err)
    (v : T) (N maxRetries baseDelay : Nat)
    (hfail : ∀ i, i < N - 1 → ops i = .error (errs i))
    (hret : ∀ i, i < N - 1 → isRetriableError (errs i) = true)
    (habort : ∀ i, i < N - 1 → isAbortShaped (errs i) = false)
    (hok : ops (N - 1) = .ok v)
    (hmax : N ≤ maxRetries) (hN : 1 ≤ N) (hbase : 0 < baseDelay) :
    withRetry ops maxRetries baseDelay =
      { result := .ok v,
        onRetryCalls := (List.range (N - 1)).map
          (fun k => (errs k, k + 1, baseDelay * 2 ^ k)),
        calls := N } ∧
    (∀ i j, i < j → j < N - 1 → baseDelay * 2 ^ i < baseDelay * 2 ^ j) := by
  constructor
  · have h := withRetryGo_window ops errs v N maxRetries baseDelay hfail hret habort hok
      hmax hN (maxRetries + 1) 0 none (by omega) (by omega)
    rw [withRetry, h, List.range_eq_range']
    simp
  · intro i j hij _
    have h2 : (2 : Nat) ^ i < 2 ^ j := Nat.pow_lt_pow_right (by norm_num) hij
    exact (mul_lt_mul_left hbase).mpr h2

/-- Concrete retriable error for the C3 witness. -/
def c3err : Err := { name := "Error", message := "network down" }

/-- Concrete operation for the C3 witness: fails twice, then succeeds. -/
def c3ops (i : Nat) : Except Err Nat := if i < 2 then .error c3err else .ok 42

/-- Witness for C3 at `N = 3`, `maxRetries = 5`, `baseDelay = 1000`. -/
theorem claimC3_witness :
    withRetry c3ops 5 1000 =
      { result := .ok 42,
        onRetryCalls := [(c3err, 1, 1000), (c3err, 2, 2000)],
        calls := 3 } ∧
    (1000 : Nat) * 2 ^ 0 < 1000 * 2 ^ 1 := by
  have h := claimC3 c3ops (fun _ => c3err) 42 3 5 1000
    (by intro i hi; simp only [c3ops]; rw [if_pos (by omega)])
    (by intro i _; show isRetriableError c3err = true; decide)
    (by intro i _; show isAbortShaped c3err = false; decide)
    (by show c3ops (3 - 1) = .ok 42; rfl)
    (by omega) (by omega) (by omega)
  exact ⟨h.1, by norm_num⟩

/-- C1: in `withRetryGenerator`, once at least one chunk has reached the
caller, a producer failure is retried only when the error matches the
stream-interruption signature: any non-interruption (non-abort) error is
re-raised as-is with no further producer invocation (first conjunct,
`calls = 1`), while an interruption error that is also retriable, with
attempts remaining, leads to exactly one more round of the retry loop
(second conjunct). -/
theorem claimC1 {T : Type} (fn : Nat → GenAttempt T) (maxRetries baseDelay : Nat)
    (lastError : Option Err) (hasYielded : Bool) (attempt fuel : Nat) :
    (∀ e, (fn attempt).outcome = some e →
      (hasYielded = true ∨ (fn attempt).yields ≠ []) →
      isAbortShaped e = false →
      isStreamInterruption e.message = false →
      withRetryGeneratorGo fn maxRetries baseDelay lastError hasYielded attempt (fuel + 1) =
        { emitted := (fn attempt).yields, result := .error e,
          onRetryCalls := [], calls := 1 }) ∧
    (∀ e, (fn attempt).outcome = some e →
      isAbortShaped e = false →
      isStreamInterruption e.message = true →
      isRetriableError e = true →
      attempt < maxRetries →
      withRetryGeneratorGo fn maxRetries baseDelay lastError hasYielded attempt (fuel + 1) =
        (let hy := hasYielded || !(fn attempt).yields.isEmpty
         let rest := withRetryGeneratorGo fn maxRetries baseDelay (some e) hy (attempt + 1) fuel
         { emitted := (fn attempt).yields ++ rest.emitted,
           result := rest.result,
           onRetryCalls := (e, attempt + 1, baseDelay * 2 ^ attempt) :: rest.onRetryCalls,
           calls := rest.calls + 1 })) := by
  constructor
  · intro e hout hy habort hni
    have hyb : (hasYielded || !(fn attempt).yields.isEmpty) = true := by
      rcases hy with h | h
      · simp [h]
      · cases h' : (fn attempt).yields with
        | nil => exact absurd h' h
        | cons a t => simp [h']
    simp only [withRetryGeneratorGo, hout, habort, hyb, hni]
    simp
  · intro e hout habort hi hr hatt
    have hnotmax : ¬ maxRetries ≤ attempt := by omega
    simp only [withRetryGeneratorGo, hout, habort, hi, hr, hnotmax]
    simp

/-- Concrete non-interruption error for the C1 witness. -/
def c1err : Err := { name := "Error", message := "boom" }

/-- Concrete producer for the C1 witness: yields one chunk, then fails
with a non-interruption error. -/
def c1fn (_ : Nat) : GenAttempt Nat := { yields := [1], outcome := some c1err }

/-- Witness for C1: the producer is invoked once, its chunk is delivered,
and the error is re-raised without a retry. -/
theorem claimC1_witness :
    withRetryGenerator c1fn 5 1000 =
      { emitted := [1], result := .error c1err, onRetryCalls := [], calls := 1 } :=
  (claimC1 c1fn 5 1000 none false 0 5).1 c1err rfl
    (Or.inr (by simp [c1fn])) (by decide) (by decide)

/-- C4: for a guard with threshold `T` (its `onTimeout` callback, when
installed, throwing the idle-timeout error as every adapter does):
(a) with no touch after `t0`, some periodic check scheduled at
`c0 + 5000·(k+1)` falls within one check interval after `t0 + T` and
flags the guard — `isAbandoned` becomes true and a retriable
idle-timeout error becomes observable via `getTimeoutError`;
(b) any check later than `T` past the last activity flags the guard the
same way; and (c) a `touch()` at time `t` resets the stall clock: a check
strictly before `t + T` leaves the guard state unchanged. -/
theorem claimC4 (T : Nat) (onT : Option Err)
    (honT : onT = none ∨ onT = some (streamIdleTimeoutError T)) :
    (∀ c0 t0, c0 ≤ t0 + T →
      ∃ k,
        c0 + IDLE_CHECK_INTERVAL_MS * (k + 1) ≤ t0 + T + IDLE_CHECK_INTERVAL_MS ∧
        t0 + T < c0 + IDLE_CHECK_INTERVAL_MS * (k + 1) ∧
        (guardCheck T onT (c0 + IDLE_CHECK_INTERVAL_MS * (k + 1)) (guardInit t0)).isAbandoned = true ∧
        ∃ e, (guardCheck T onT (c0 + IDLE_CHECK_INTERVAL_MS * (k + 1)) (guardInit t0)).timeoutError = some e ∧
          isRetriableError e = true ∧ e.name = "StreamIdleTimeoutError") ∧
    (∀ s now, s.isAbandoned = false → s.timeoutError = none →
      T < now - s.lastChunkTime →
      (guardCheck T onT now s).isAbandoned = true ∧
      ∃ e, (guardCheck T onT now s).timeoutError = some e ∧
        isRetriableError e = true ∧ e.name = "StreamIdleTimeoutError") ∧
    (∀ s t now', now' < t + T →
      guardCheck T onT now' (guardTouch t s) = guardTouch t s) := by
  have hflag : ∀ s now, s.isAbandoned = false → s.timeoutError = none →
      T < now - s.lastChunkTime →
      (guardCheck T onT now s).isAbandoned = true ∧
      ∃ e, (guardCheck T onT now s).timeoutError = some e ∧
        isRetriableError e = true ∧ e.name = "StreamIdleTimeoutError" := by
    intro s now hab herr hlate
    have hcond : ¬ (now - s.lastChunkTime ≤ T) := by omega
    rcases honT with h | h <;>
      simp only [guardCheck, hab, herr, hcond, h, Bool.false_eq_true, if_false, if_neg hcond] <;>
      refine ⟨rfl, streamIdleTimeoutError T, rfl, ?_, rfl⟩ <;>
      simp [isRetriableError, streamIdleTimeoutError]
  refine ⟨?_, hflag, ?_⟩
  · intro c0 t0 hc0
    refine ⟨(t0 + T - c0) / IDLE_CHECK_INTERVAL_MS, ?_, ?_, ?_⟩
    · simp only [IDLE_CHECK_INTERVAL_MS] at *
      omega
    · simp only [IDLE_CHECK_INTERVAL_MS] at *
      omega
    · have hlate : T < c0 + IDLE_CHECK_INTERVAL_MS * ((t0 + T - c0) / IDLE_CHECK_INTERVAL_MS + 1) - t0 := by
        simp only [IDLE_CHECK_INTERVAL_MS] at *
        omega
      exact hflag (guardInit t0) _ rfl rfl hlate
  · intro s t now' hbefore
    have hcond : now' - (guardTouch t s).lastChunkTime ≤ T := by
      simp only [guardTouch]
      omega
    by_cases hab : (guardTouch t s).isAbandoned
    · simp [guardCheck, hab]
    · simp [guardCheck, hab, hcond]

/-- Witness for C4: with the default 180s threshold and no touch after
time 0, a check at 200000ms flags the guard with a retriable
idle-timeout error. -/
theorem claimC4_witness :
    (guardCheck 180000 none 200000 (guardInit 0)).isAbandoned = true ∧
    ∃ e, (guardCheck 180000 none 200000 (guardInit 0)).timeoutError = some e ∧
      isRetriableError e = true ∧ e.name = "StreamIdleTimeoutError" :=
  (claimC4 180000 none (Or.inl rfl)).2.1 (guardInit 0) 200000 rfl rfl
    (by simp only [guardInit]; norm_num)

/-- Is this a `usage` event? -/
def isUsageEv : UEvent → Bool
  | .usage _ => true
  | _ => false

/-- Is this a `tool_calls` event? -/
def isToolCallsEv : UEvent → Bool
  | .tool_calls _ => true
  | _ => false

/-- Is this a `done` event? -/
def isDoneEv : UEvent → Bool
  | .done _ _ => true
  | _ => false

/-- Events that the adapter loops may emit while decoding (per-fragment
deltas); `tool_calls`, `usage`, `reasoning_data` and `done` are emitted
only during finalisation. -/
def isLoopEv : UEvent → Bool
  | .content _ => true
  | .reasoning_started => true
  | .reasoning_delta _ => true
  | .tool_call_delta _ => true
  | _ => false

/-- The ordering invariant of one successful unified stream: at most one
`usage` and at most one `tool_calls` event, and a unique final `done`
event (hence both precede `done`). -/
def goodStream (out : List UEvent) : Prop :=
  out.countP isUsageEv ≤ 1 ∧ out.countP isToolCallsEv ≤ 1 ∧
  ∃ pre last, out = pre ++ [last] ∧ isDoneEv last = true ∧ pre.countP isDoneEv = 0

/-- A list of loop events contains no usage/tool-calls/done events. -/
theorem loopEv_counts {l : List UEvent} (h : l.all isLoopEv = true) :
    l.countP isUsageEv = 0 ∧ l.countP isToolCallsEv = 0 ∧ l.countP isDoneEv = 0 := by
  rw [List.all_eq_true] at h
  refine ⟨List.countP_eq_zero.mpr ?_, List.countP_eq_zero.mpr ?_, List.countP_eq_zero.mpr ?_⟩ <;>
    intro a ha <;> have := h a ha <;> cases a <;> simp_all [isLoopEv, isUsageEv, isToolCallsEv, isDoneEv]

/-- Prefixing loop events onto a good finalisation keeps the invariant. -/
theorem goodStream_of_loop_final {loopEvs fin : List UEvent}
    (hl : loopEvs.all isLoopEv = true)
    (h1 : fin.countP isUsageEv ≤ 1) (h2 : fin.countP isToolCallsEv ≤ 1)
    (h3 : ∃ pre last, fin = pre ++ [last] ∧ isDoneEv last = true ∧ pre.countP isDoneEv = 0) :
    goodStream (loopEvs ++ fin) := by
  obtain ⟨hu, ht, hd⟩ := loopEv_counts hl
  obtain ⟨pre, last, hfin, hlast, hpre⟩ := h3
  refine ⟨?_, ?_, loopEvs ++ pre, last, ?_, hlast, ?_⟩
  · rw [List.countP_append, hu]; omega
  · rw [List.countP_append, ht]; omega
  · rw [hfin, List.append_assoc]
  · rw [List.countP_append, hd, hpre]

set_option maxHeartbeats 3200000 in
/-- The Anthropic loop body emits only per-fragment delta events. -/
theorem anthStep_loopEv (st : AnthState) (e : Json) :
    ((anthStep st e).2).all isLoopEv = true := by
  unfold anthStep
  repeat' split
  all_goals simp only [List.all_append, Bool.and_eq_true]
  all_goals repeat' split
  all_goals simp [isLoopEv]

/-- The Anthropic event loop emits only per-fragment delta events. -/
theorem anthLoop_loopEv : ∀ (evs : List Json) (st : AnthState),
    ((anthLoop st evs).2).all isLoopEv = true := by
  intro evs
  induction evs with
  | nil => intro st; rfl
  | cons e es ih =>
    intro st
    have h1 := anthStep_loopEv st e
    simp only [anthLoop]
    rcases hs : anthStep st e with ⟨st1, evs1⟩
    rcases hl : anthLoop st1 es with ⟨st2, evs2⟩
    have h2 := ih st1
    rw [hs] at h1
    rw [hl] at h2
    simp only [List.all_append, h1, h2, Bool.and_self]

/-- Shape of a finalisation `A ++ (B ++ [d])` with a done event last. -/
theorem shape2 (A B : List UEvent) (d : UEvent) (hd : isDoneEv d = true)
    (hdu : isUsageEv d = false) (hdt : isToolCallsEv d = false)
    (hA : A.countP isDoneEv = 0 ∧ A.countP isUsageEv = 0 ∧ A.countP isToolCallsEv ≤ 1)
    (hB : B.countP isDoneEv = 0 ∧ B.countP isUsageEv ≤ 1 ∧ B.countP isToolCallsEv = 0) :
    (A ++ B ++ [d]).countP isUsageEv ≤ 1 ∧
    (A ++ B ++ [d]).countP isToolCallsEv ≤ 1 ∧
    ∃ pre last, A ++ B ++ [d] = pre ++ [last] ∧ isDoneEv last = true ∧
      pre.countP isDoneEv = 0 := by
  obtain ⟨hA1, hA2, hA3⟩ := hA
  obtain ⟨hB1, hB2, hB3⟩ := hB
  refine ⟨?_, ?_, A ++ B, d, by simp, hd, ?_⟩
  all_goals simp [List.countP_append, List.countP_cons, hdu, hdt, hd, hA1, hB1] <;> omega

/-- Shape of a finalisation `A ++ (B ++ (C ++ [d]))` (Responses). -/
theorem shape3 (A B C : List UEvent) (d : UEvent) (hd : isDoneEv d = true)
    (hdu : isUsageEv d = false) (hdt : isToolCallsEv d = false)
    (hA : A.countP isDoneEv = 0 ∧ A.countP isUsageEv = 0 ∧ A.countP isToolCallsEv ≤ 1)
    (hB : B.countP isDoneEv = 0 ∧ B.countP isUsageEv = 0 ∧ B.countP isToolCallsEv = 0)
    (hC : C.countP isDoneEv = 0 ∧ C.countP isUsageEv ≤ 1 ∧ C.countP isToolCallsEv = 0) :
    (A ++ B ++ C ++ [d]).countP isUsageEv ≤ 1 ∧
    (A ++ B ++ C ++ [d]).countP isToolCallsEv ≤ 1 ∧
    ∃ pre last, A ++ B ++ C ++ [d] = pre ++ [last] ∧ isDoneEv last = true ∧
      pre.countP isDoneEv = 0 := by
  obtain ⟨hA1, hA2, hA3⟩ := hA
  obtain ⟨hB1, hB2, hB3⟩ := hB
  obtain ⟨hC1, hC2, hC3⟩ := hC
  refine ⟨?_, ?_, A ++ B ++ C, d, by simp, hd, ?_⟩
  all_goals simp [List.countP_append, List.countP_cons, hdu, hdt, hd, hA1, hB1, hC1] <;> omega

/-- The Anthropic finalisation has the required ending shape. -/
theorem anthFinalize_shape (st : AnthState) :
    (anthFinalize st).countP isUsageEv ≤ 1 ∧
    (anthFinalize st).countP isToolCallsEv ≤ 1 ∧
    ∃ pre last, anthFinalize st = pre ++ [last] ∧ isDoneEv last = true ∧
      pre.countP isDoneEv = 0 := by
  unfold anthFinalize
  refine shape2 _ _ _ ?_ ?_ ?_ ?_ ?_
  · rfl
  · rfl
  · rfl
  · split <;> simp [isDoneEv, isUsageEv, isToolCallsEv]
  · rcases st.usageData with _ | u <;> simp [isDoneEv, isUsageEv, isToolCallsEv]

set_option maxHeartbeats 3200000 in
/-- One chat tool-call delta emits only delta events. -/
theorem chatToolStep_loopEv (st : ChatState) (dc : Json) :
    ((chatToolStep st dc).2).all isLoopEv = true := by
  unfold chatToolStep
  repeat' split
  all_goals simp [isLoopEv]

/-- The chat tool-call loop emits only delta events. -/
theorem chatToolLoop_loopEv : ∀ (dcs : List Json) (st : ChatState),
    ((chatToolLoop st dcs).2).all isLoopEv = true := by
  intro dcs
  induction dcs with
  | nil => intro st; rfl
  | cons dc rest ih =>
    intro st
    have h1 := chatToolStep_loopEv st dc
    simp only [chatToolLoop]
    rcases hs : chatToolStep st dc with ⟨st1, evs1⟩
    rcases hl : chatToolLoop st1 rest with ⟨st2, evs2⟩
    have h2 := ih st1
    rw [hs] at h1
    rw [hl] at h2
    simp only [List.all_append, h1, h2, Bool.and_self]

set_option maxHeartbeats 6400000 in
/-- The chat loop body emits only delta events. -/
theorem chatStep_loopEv (st : ChatState) (c : Json) :
    ((chatStep st c).2.1).all isLoopEv = true := by
  unfold chatStep
  repeat' split
  all_goals simp only [List.all_append, Bool.and_eq_true]
  all_goals repeat' split
  all_goals try simp [isLoopEv]
  all_goals exact fun x hx => (List.all_eq_true.mp (chatToolLoop_loopEv _ _)) x hx

/-- The chat chunk loop emits only delta events. -/
theorem chatLoop_loopEv : ∀ (cs : List Json) (st : ChatState),
    ((chatLoop st cs).2).all isLoopEv = true := by
  intro cs
  induction cs with
  | nil => intro st; rfl
  | cons c rest ih =>
    intro st
    have h1 := chatStep_loopEv st c
    simp only [chatLoop]
    rcases hs : chatStep st c with ⟨st1, evs1, flag⟩
    rw [hs] at h1
    cases flag
    · rcases hl : chatLoop st1 rest with ⟨st2, evs2⟩
      have h2 := ih st1
      rw [hl] at h2
      simp only [List.all_append]
      simp_all
    · simp_all

/-- The chat finalisation has the required ending shape. -/
theorem chatFinalize_shape (st : ChatState) :
    (chatFinalize st).countP isUsageEv ≤ 1 ∧
    (chatFinalize st).countP isToolCallsEv ≤ 1 ∧
    ∃ pre last, chatFinalize st = pre ++ [last] ∧ isDoneEv last = true ∧
      pre.countP isDoneEv = 0 := by
  unfold chatFinalize
  refine shape2 _ _ _ ?_ ?_ ?_ ?_ ?_
  · rfl
  · rfl
  · rfl
  · split <;> simp [isDoneEv, isUsageEv, isToolCallsEv]
  · rcases st.usageData with _ | u <;> simp [isDoneEv, isUsageEv, isToolCallsEv]

/-- Events of a successful step result (`[]` for a raised error). -/
def okEvents : Except Err (RespState × List UEvent × Bool) → List UEvent
  | .error _ => []
  | .ok r => r.2.1

set_option maxHeartbeats 6400000 in
/-- The second half of a Responses loop step emits only delta events. -/
theorem respStepB_loopEvAux (st : RespState) (c : Json) :
    (okEvents (respStepB st c)).all isLoopEv = true := by
  unfold respStepB
  repeat' split
  all_goals simp only [okEvents]
  all_goals repeat' split
  all_goals try simp [isLoopEv]
  all_goals rename_i heq
  all_goals repeat' split at heq
  all_goals cases heq
  all_goals simp [isLoopEv]

set_option maxHeartbeats 6400000 in
/-- A Responses loop step emits only delta events. -/
theorem respStep_loopEvAux (st : RespState) (c : Json) :
    (okEvents (respStep st c)).all isLoopEv = true := by
  unfold respStep
  repeat' split
  all_goals try exact respStepB_loopEvAux st c
  all_goals simp only [okEvents]
  all_goals repeat' split
  all_goals try simp [isLoopEv]
  all_goals rename_i heq
  all_goals repeat' split at heq
  all_goals cases heq
  all_goals simp [isLoopEv]

/-- Equational form of `respStep_loopEvAux`. -/
theorem respStep_loopEv (st : RespState) (c : Json) :
    ∀ r, respStep st c = .ok r → (r.2.1).all isLoopEv = true := by
  intro r hr
  have h := respStep_loopEvAux st c
  rw [hr] at h
  exact h

/-- A successful Responses loop emits only delta events. -/
theorem respLoop_loopEv : ∀ (cs : List Json) (st : RespState) r,
    respLoop st cs = .ok r → (r.2).all isLoopEv = true := by
  intro cs
  induction cs with
  | nil =>
    intro st r hr
    cases hr
    rfl
  | cons c rest ih =>
    intro st r hr
    rcases hs : respStep st c with e | ⟨st1, evs1, flag⟩
    · simp only [respLoop, hs] at hr
      exact (Except.noConfusion hr)
    · simp only [respLoop, hs] at hr
      have h1 := respStep_loopEv st c _ hs
      cases flag
      · rcases hl : respLoop st1 rest with e2 | ⟨st2, evs2⟩
        · simp only [hl] at hr
          exact (Except.noConfusion hr)
        · simp only [hl] at hr
          cases hr
          have h2 := ih st1 _ hl
          simp only [List.all_append]
          simp_all
      · cases hr
        simp_all

/-- The Responses finalisation has the required ending shape. -/
theorem respFinalize_shape (st : RespState) :
    (respFinalize st).countP isUsageEv ≤ 1 ∧
    (respFinalize st).countP isToolCallsEv ≤ 1 ∧
    ∃ pre last, respFinalize st = pre ++ [last] ∧ isDoneEv last = true ∧
      pre.countP isDoneEv = 0 := by
  unfold respFinalize
  refine shape3 _ _ _ _ ?_ ?_ ?_ ?_ ?_ ?_
  · rfl
  · rfl
  · rfl
  · split <;> simp [isDoneEv, isUsageEv, isToolCallsEv]
  · rcases st.reasoningData with _ | ⟨s1, c1, e1⟩ <;> simp [isDoneEv, isUsageEv, isToolCallsEv]
  · rcases st.usageData with _ | u <;> simp [isDoneEv, isUsageEv, isToolCallsEv]

set_option maxHeartbeats 3200000 in
/-- The text handling of one Gemini part emits only delta events. -/
theorem gemPartText_loopEv (st : GemState) (p : Json) :
    ((gemPartText st p).2).all isLoopEv = true := by
  unfold gemPartText
  repeat' split
  all_goals simp [isLoopEv]

set_option maxHeartbeats 3200000 in
/-- One Gemini part emits only delta events. -/
theorem gemPartStep_loopEv (st : GemState) (p : Json) :
    ((gemPartStep st p).2).all isLoopEv = true := by
  have ht := gemPartText_loopEv st p
  unfold gemPartStep
  rcases hs : gemPartText st p with ⟨st1, evs1⟩
  rw [hs] at ht
  repeat' split
  all_goals simp only [List.all_append, Bool.and_eq_true]
  all_goals repeat' split
  all_goals simp_all [isLoopEv]

/-- The Gemini parts loop emits only delta events. -/
theorem gemPartsLoop_loopEv : ∀ (ps : List Json) (st : GemState),
    ((gemPartsLoop st ps).2).all isLoopEv = true := by
  intro ps
  induction ps with
  | nil => intro st; rfl
  | cons p rest ih =>
    intro st
    have h1 := gemPartStep_loopEv st p
    simp only [gemPartsLoop]
    rcases hs : gemPartStep st p with ⟨st1, evs1⟩
    rcases hl : gemPartsLoop st1 rest with ⟨st2, evs2⟩
    have h2 := ih st1
    rw [hs] at h1
    rw [hl] at h2
    simp only [List.all_append, h1, h2, Bool.and_self]

set_option maxHeartbeats 3200000 in
/-- The candidates processing of one Gemini chunk emits only delta
events. -/
theorem gemCandidatesStep_loopEv (st : GemState) (c : Json) :
    ((gemCandidatesStep st c).2).all isLoopEv = true := by
  unfold gemCandidatesStep
  repeat' split
  all_goals try rfl
  all_goals exact gemPartsLoop_loopEv _ _

/-- One Gemini chunk emits only delta events. -/
theorem gemChunkStep_loopEv (st : GemState) (c : Json) :
    ((gemChunkStep st c).2).all isLoopEv = true := by
  have ht := gemCandidatesStep_loopEv st c
  unfold gemChunkStep
  rcases hs : gemCandidatesStep st c with ⟨st1, evs1⟩
  rw [hs] at ht
  simp only [hs]
  split <;> exact ht

/-- The Gemini chunk loop emits only delta events. -/
theorem gemLoop_loopEv : ∀ (cs : List Json) (st : GemState),
    ((gemLoop st cs).2).all isLoopEv = true := by
  intro cs
  induction cs with
  | nil => intro st; rfl
  | cons c rest ih =>
    intro st
    have h1 := gemChunkStep_loopEv st c
    simp only [gemLoop]
    rcases hs : gemChunkStep st c with ⟨st1, evs1⟩
    rcases hl : gemLoop st1 rest with ⟨st2, evs2⟩
    have h2 := ih st1
    rw [hs] at h1
    rw [hl] at h2
    simp only [List.all_append, h1, h2, Bool.and_self]

/-- The Gemini finalisation has the required ending shape. -/
theorem gemFinalize_shape (st : GemState) :
    (gemFinalize st).countP isUsageEv ≤ 1 ∧
    (gemFinalize st).countP isToolCallsEv ≤ 1 ∧
    ∃ pre last, gemFinalize st = pre ++ [last] ∧ isDoneEv last = true ∧
      pre.countP isDoneEv = 0 := by
  unfold gemFinalize
  refine shape2 _ _ _ ?_ ?_ ?_ ?_ ?_
  · rfl
  · rfl
  · rfl
  · split <;> simp [isDoneEv, isUsageEv, isToolCallsEv]
  · split <;> simp [isDoneEv, isUsageEv, isToolCallsEv]

/-- C2: every successful stream of each of the four adapters satisfies
the ordering invariant: at most one `usage` event, at most one
`tool_calls` event, and a unique final `done` event (so both precede
`done`, and `done` is emitted exactly once per successful attempt). -/
theorem claimC2 :
    (∀ events, goodStream (anthropicAdapter events)) ∧
    (∀ chunks, goodStream (chatAdapter chunks)) ∧
    (∀ chunks, goodStream (geminiAdapter chunks)) ∧
    (∀ chunks out, responsesAdapter chunks = .ok out → goodStream out) := by
  refine ⟨?_, ?_, ?_, ?_⟩
  · intro evs
    unfold anthropicAdapter
    rcases hl : anthLoop anthInit evs with ⟨st, levs⟩
    have h := anthLoop_loopEv evs anthInit
    rw [hl] at h
    obtain ⟨h1, h2, h3⟩ := anthFinalize_shape st
    exact goodStream_of_loop_final h h1 h2 h3
  · intro chunks
    unfold chatAdapter
    rcases hl : chatLoop chatInit chunks with ⟨st, levs⟩
    have h := chatLoop_loopEv chunks chatInit
    rw [hl] at h
    obtain ⟨h1, h2, h3⟩ := chatFinalize_shape st
    exact goodStream_of_loop_final h h1 h2 h3
  · intro chunks
    unfold geminiAdapter
    rcases hl : gemLoop gemInit chunks with ⟨st, levs⟩
    have h := gemLoop_loopEv chunks gemInit
    rw [hl] at h
    obtain ⟨h1, h2, h3⟩ := gemFinalize_shape st
    exact goodStream_of_loop_final h h1 h2 h3
  · intro chunks out hok
    unfold responsesAdapter at hok
    rcases hl : respLoop respInit chunks with e | ⟨st, levs⟩
    · rw [hl] at hok
      exact (Except.noConfusion hok)
    · rw [hl] at hok
      cases hok
      have h := respLoop_loopEv chunks respInit _ hl
      obtain ⟨h1, h2, h3⟩ := respFinalize_shape st
      exact goodStream_of_loop_final h h1 h2 h3

/-- Witness for C2: the four adapters on an empty (or trivially
successful) stream. -/
theorem claimC2_witness :
    goodStream (anthropicAdapter []) ∧ goodStream (chatAdapter []) ∧
    goodStream (geminiAdapter []) ∧ goodStream [UEvent.done none none] :=
  ⟨claimC2.1 [], claimC2.2.1 [], claimC2.2.2.1 [], claimC2.2.2.2 [] _ rfl⟩

/-- Is this a `tool_call_delta` event? -/
def isToolCallDeltaEv : UEvent → Bool
  | .tool_call_delta _ => true
  | _ => false

/-- The Anthropic-shaped scenario of C7, exactly as stated:
`content_block_start{type:tool_use,id:"t1"}`, two `input_json_delta`
fragments assembling `{"a":1}`, `content_block_stop`, and a
`message_delta` with `usage.output_tokens = 5`.  (The scenario gives the
tool block no `name`; reading the absent field as text yields the string
`"undefined"`.) -/
def c7Events : List Json :=
  [Json.obj [("type", Json.str "content_block_start"), ("index", Json.num 0),
     ("content_block", Json.obj [("type", Json.str "tool_use"), ("id", Json.str "t1")])],
   Json.obj [("type", Json.str "content_block_delta"), ("index", Json.num 0),
     ("delta", Json.obj [("type", Json.str "input_json_delta"),
       ("partial_json", Json.str "\x7b\"a\":1")])],
   Json.obj [("type", Json.str "content_block_delta"), ("index", Json.num 0),
     ("delta", Json.obj [("type", Json.str "input_json_delta"),
       ("partial_json", Json.str "\x7d")])],
   Json.obj [("type", Json.str "content_block_stop"), ("index", Json.num 0)],
   Json.obj [("type", Json.str "message_delta"),
     ("usage", Json.obj [("output_tokens", Json.num 5)])]]

/-- Counterexample to C7 as stated: the scenario produces three
`tool-call-delta` events (one for the block start, one per JSON
fragment), not exactly one, so the produced sequence has six events, not
four. -/
theorem claimC7_cex :
    (anthropicAdapter c7Events).countP isToolCallDeltaEv = 3 ∧
    ¬ ((anthropicAdapter c7Events).countP isToolCallDeltaEv = 1) ∧
    (anthropicAdapter c7Events).length = 6 := by
  refine ⟨by decide, by decide, by decide⟩

/-- C7 (amended): the scenario produces exactly the sequence — three
`tool_call_delta` events (the tool-use block start, then one per JSON
fragment), one finalised `tool_calls` event whose argument string is
`{"a":1}`, one `usage` event carrying `completion_tokens = 5`, then
`done`. -/
theorem claimC7_amended :
    anthropicAdapter c7Events =
      [UEvent.tool_call_delta "undefined",
       UEvent.tool_call_delta "\x7b\"a\":1",
       UEvent.tool_call_delta "\x7d",
       UEvent.tool_calls
         [{ id := "t1", name := "undefined", arguments := "\x7b\"a\":1\x7d" }],
       UEvent.usage { prompt_tokens := 0, completion_tokens := 5, total_tokens := 5 },
       UEvent.done none none] := by
  rfl

/-- When both parse attempts fail and a fallback was supplied,
`parseJsonWithFix` returns the fallback as its data. -/
theorem parseJsonWithFix_fallback (s : String) (fb : Json)
    (h : (parseJsonWithFix s (some fb)).success = false) :
    (parseJsonWithFix s (some fb)).data = some fb := by
  unfold parseJsonWithFix at h ⊢
  rcases h1 : jsonParse s with _ | v <;> simp only [h1] at h ⊢
  · rcases h2 : applyJsonFixes s.data with ⟨fc, wf⟩
    simp only [h2] at h ⊢
    rcases h3 : jsonParse (String.mk fc) with _ | v2 <;> simp only [h3] at h ⊢
    all_goals first
      | rfl
      | simp at h
  · simp at h

/-- C10: every tool call in the Anthropic adapter's final `tool_calls`
event carries an argument string that is the `JSON.stringify` image of
the parsed-or-fallback value; an empty or whitespace-only accumulated
argument string is replaced by `{}`, and a string that still fails to
parse after repair is replaced by the serialised fallback `{}` (the
completed and interrupted branches compute identically). -/
theorem claimC10 :
    (∀ tc : ToolCall, ∃ j : Json, (normalizeAnthArgs tc).arguments = jsonStringify j) ∧
    (∀ tc : ToolCall, trimStr tc.arguments = "" →
      (normalizeAnthArgs tc).arguments = "\x7b\x7d") ∧
    (∀ tc : ToolCall,
      (parseJsonWithFix (anthArgsInput tc) (some (Json.obj []))).success = false →
      (normalizeAnthArgs tc).arguments = "\x7b\x7d") ∧
    (∀ evs calls tc, UEvent.tool_calls calls ∈ anthropicAdapter evs → tc ∈ calls →
      ∃ j : Json, tc.arguments = jsonStringify j) := by
  have hstr : ∀ tc : ToolCall, ∃ j : Json,
      (normalizeAnthArgs tc).arguments = jsonStringify j := by
    intro tc
    exact ⟨(parseJsonWithFix (anthArgsInput tc) (some (Json.obj []))).data.getD (Json.obj []),
      rfl⟩
  refine ⟨hstr, ?_, ?_, ?_⟩
  · intro tc h
    unfold normalizeAnthArgs anthArgsInput
    rw [h]
    rfl
  · intro tc h
    show jsonStringify
      ((parseJsonWithFix (anthArgsInput tc) (some (Json.obj []))).data.getD (Json.obj [])) = _
    rw [parseJsonWithFix_fallback _ _ h]
    rfl
  · intro evs calls tc hmem htc
    unfold anthropicAdapter at hmem
    rcases hl : anthLoop anthInit evs with ⟨st, levs⟩
    rw [hl] at hmem
    have hloop := anthLoop_loopEv evs anthInit
    rw [hl] at hloop
    rw [List.mem_append] at hmem
    rcases hmem with hin | hin
    · have := (List.all_eq_true.mp hloop) _ hin
      simp [isLoopEv] at this
    · unfold anthFinalize at hin
      rw [List.mem_append, List.mem_append] at hin
      rcases hin with (hin | hin) | hin
      · split at hin
        · simp only [List.mem_singleton] at hin
          cases hin
          rcases List.mem_map.mp htc with ⟨tc0, _, htc0⟩
          exact htc0 ▸ hstr tc0
        · simp at hin
      · split at hin <;> simp_all
      · simp at hin

/-- Witness for C10: a whitespace-only argument string normalises to
`{}`, and an unrepairable argument string falls back to `{}`. -/
theorem claimC10_witness :
    (normalizeAnthArgs { id := "t1", name := "f", arguments := "  " }).arguments = "\x7b\x7d" ∧
    (normalizeAnthArgs { id := "t2", name := "g", arguments := "not json" }).arguments = "\x7b\x7d" :=
  ⟨claimC10.2.1 { id := "t1", name := "f", arguments := "  " } rfl,
   claimC10.2.2.1 { id := "t2", name := "g", arguments := "not json" } (by decide)⟩

/-- An Anthropic `content_block_start` frame opening a `tool_use` block
(a structural block-start marker: it carries no argument delta). -/
def c8AnthStart : Json :=
  Json.obj [("type", Json.str "content_block_start"), ("index", Json.num 0),
    ("content_block", Json.obj [("type", Json.str "tool_use"),
      ("id", Json.str "toolu_1"), ("name", Json.str "get_weather")])]

/-- The same frame as the raw SSE data line received by the decode loop. -/
def c8AnthLine : List Char :=
  ("data: \x7b\"type\":\"content_block_start\",\"index\":0,\"content_block\":\x7b\"type\":\"tool_use\",\"id\":\"toolu_1\",\"name\":\"get_weather\"\x7d\x7d").data

/-- A Responses `output_item.added` frame announcing a `function_call`
item (a structural output-item marker). -/
def c8RespAdded : Json :=
  Json.obj [("type", Json.str "response.output_item.added"),
    ("item", Json.obj [("type", Json.str "function_call"),
      ("call_id", Json.str "call_1"), ("name", Json.str "get_weather")])]

/-- Resulting state of a processed line (the given default for `stop`). -/
def lineOutSt (dflt : SSEState) : SSELineOut → SSEState
  | .stop => dflt
  | .cont st _ => st

/-- Events of a processed line. -/
def lineOutEvs : SSELineOut → List Json
  | .stop => []
  | .cont _ evs => evs

set_option maxHeartbeats 3200000 in
/-- Every processed line obeys the touch discipline: the touch counter is
unchanged, or incremented together with the emission of a single parsed
event satisfying the business predicate. -/
theorem sseLineStep_touchAux (business : Json → Bool) (recordEvt : Bool)
    (st : SSEState) (line : List Char) :
    (lineOutSt st (sseLineStep business recordEvt st line)).touches = st.touches ∨
      ((lineOutSt st (sseLineStep business recordEvt st line)).touches = st.touches + 1 ∧
        ∃ ev, lineOutEvs (sseLineStep business recordEvt st line) = [ev] ∧
          business ev = true) := by
  by_cases h1 : (trimChars line = [] ∨ startsWithL (trimChars line) [':'] = true)
  · simp [sseLineStep, h1, lineOutSt, lineOutEvs]
  · by_cases h2 : isDoneLine (trimChars line) = true
    · simp [sseLineStep, h1, h2, lineOutSt, lineOutEvs]
    · by_cases h3 : startsWithL (trimChars line) "event:".data = true
      · cases recordEvt <;> simp [sseLineStep, h1, h2, h3, lineOutSt, lineOutEvs]
      · by_cases h4 : startsWithL (trimChars line) "data:".data = true
        · have hcore : ∀ dataStr : String,
              (lineOutSt st
                (let parseResult := parseJsonWithFix dataStr none
                 if parseResult.success then
                   match parseResult.data with
                   | some event =>
                     let st1 := if business event then { st with touches := st.touches + 1 } else st
                     let st2 := if recordEvt then { st1 with dataCount := st1.dataCount + 1 } else st1
                     SSELineOut.cont st2 [event]
                   | none => SSELineOut.cont st []
                 else SSELineOut.cont st [])).touches = st.touches ∨
              (((lineOutSt st
                (let parseResult := parseJsonWithFix dataStr none
                 if parseResult.success then
                   match parseResult.data with
                   | some event =>
                     let st1 := if business event then { st with touches := st.touches + 1 } else st
                     let st2 := if recordEvt then { st1 with dataCount := st1.dataCount + 1 } else st1
                     SSELineOut.cont st2 [event]
                   | none => SSELineOut.cont st []
                 else SSELineOut.cont st [])).touches = st.touches + 1) ∧
                ∃ ev, lineOutEvs
                  (let parseResult := parseJsonWithFix dataStr none
                   if parseResult.success then
                     match parseResult.data with
                     | some event =>
                       let st1 := if business event then { st with touches := st.touches + 1 } else st
                       let st2 := if recordEvt then { st1 with dataCount := st1.dataCount + 1 } else st1
                       SSELineOut.cont st2 [event]
                     | none => SSELineOut.cont st []
                   else SSELineOut.cont st []) = [ev] ∧ business ev = true) := by
            intro dataStr
            by_cases h5 : (parseJsonWithFix dataStr none).success = true
            · rcases hdata : (parseJsonWithFix dataStr none).data with _ | ev
              · simp [h5, hdata, lineOutSt, lineOutEvs]
              · by_cases h6 : business ev = true
                · right
                  cases recordEvt <;>
                    simp [h5, hdata, h6, lineOutSt, lineOutEvs]
                · cases recordEvt <;>
                    simp [h5, hdata, h6, lineOutSt, lineOutEvs]
            · simp [h5, lineOutSt, lineOutEvs]
          simp only [sseLineStep, if_neg h1, if_neg h2, if_neg h3, if_pos h4]
          exact hcore _
        · simp [sseLineStep, h1, h2, h3, h4, lineOutSt, lineOutEvs]

/-- Counterexample to C8 as stated: block-start markers do reset the
stall clock.  The Anthropic decode loop's business predicate accepts a
`tool_use` `content_block_start`, and processing that frame increments
the touch counter; the Responses predicate likewise accepts a
`function_call` `output_item.added`. -/
theorem claimC8_cex :
    anthBusinessDelta c8AnthStart = true ∧
    typeIs c8AnthStart "content_block_start" = true ∧
    sseLineStep anthBusinessDelta true sseInit c8AnthLine =
      SSELineOut.cont { dataCount := 1, lastEventType := "", touches := 1 } [c8AnthStart] ∧
    respBusinessDelta c8RespAdded = true ∧
    typeIs c8RespAdded "response.output_item.added" = true := by
  refine ⟨by decide, by decide, by rfl, by decide, by decide⟩

/-- C8 (amended): a `guard.touch()` fires only when a data frame parses
to an event satisfying the adapter's business predicate — blank
heartbeat lines and comment lines never touch, and any processed line
changes the touch counter by at most one, only together with the
emission of a business event.  The business predicates accept exactly
the content/reasoning/tool-argument deltas plus, for Anthropic, a
`tool_use` block start (but no other block start), and, for Responses, a
`function_call` output-item-added marker (but no other added item). -/
theorem claimC8_amended :
    (∀ (business : Json → Bool) (recordEvt : Bool) (st : SSEState) (line : List Char),
      trimChars line = [] ∨ startsWithL (trimChars line) [':'] = true →
      sseLineStep business recordEvt st line = SSELineOut.cont st []) ∧
    (∀ (business : Json → Bool) (recordEvt : Bool) (st : SSEState) (line : List Char)
        (st1 : SSEState) (evs : List Json),
      sseLineStep business recordEvt st line = SSELineOut.cont st1 evs →
      st1.touches = st.touches ∨
        (st1.touches = st.touches + 1 ∧ ∃ ev, evs = [ev] ∧ business ev = true)) ∧
    anthBusinessDelta c8AnthStart = true ∧
    (∀ e, typeIs e "content_block_start" = true →
      otypeIs (e.get? "content_block") "tool_use" = false → anthBusinessDelta e = false) ∧
    respBusinessDelta c8RespAdded = true ∧
    (∀ e, typeIs e "response.output_item.added" = true →
      otypeIs (e.get? "item") "function_call" = false → respBusinessDelta e = false) := by
  refine ⟨?_, ?_, by decide, ?_, by decide, ?_⟩
  · intro business recordEvt st line h
    unfold sseLineStep
    rcases h with h | h <;> simp [h]
  · intro business recordEvt st line st1 evs h
    have haux := sseLineStep_touchAux business recordEvt st line
    rw [h] at haux
    simpa [lineOutSt, lineOutEvs] using haux
  · intro e h1 h2
    unfold anthBusinessDelta
    have : typeIs e "content_block_delta" = false := by
      unfold typeIs at h1 ⊢
      rcases he : e.get? "type" with _ | j <;> simp [he] at h1 ⊢
      cases j <;> simp_all
    simp [h1, h2, this]
  · intro e h1 h2
    unfold respBusinessDelta
    have h3 : typeIs e "response.output_text.delta" = false ∧
        typeIs e "response.reasoning_summary_text.delta" = false ∧
        typeIs e "response.function_call_arguments.delta" = false := by
      unfold typeIs at h1 ⊢
      rcases he : e.get? "type" with _ | j <;> simp [he] at h1 ⊢
      cases j <;> simp_all
    simp [h1, h2, h3.1, h3.2.1, h3.2.2]

/-- Witness for C8 (amended): a blank heartbeat line leaves the state
untouched. -/
theorem claimC8_witness :
    sseLineStep anthBusinessDelta true sseInit "  ".data = SSELineOut.cont sseInit [] :=
  claimC8_amended.1 anthBusinessDelta true sseInit "  ".data (Or.inl (by decide))

/-- A prefix match survives extending the text on the right. -/
theorem startsWithL_append {s p b : List Char} (h : startsWithL s p = true) :
    startsWithL (s ++ b) p = true := by
  induction p generalizing s with
  | nil => cases s ++ b <;> rfl
  | cons x xs ih =>
    cases s with
    | nil => simp [startsWithL] at h
    | cons c cs =>
      simp only [startsWithL, Bool.and_eq_true, decide_eq_true_eq] at h ⊢
      exact ⟨h.1, ih h.2⟩

/-- A substring of `a` is a substring of `a ++ b`. -/
theorem containsL_append_left {a b p : List Char} (h : containsL a p = true) :
    containsL (a ++ b) p = true := by
  induction a with
  | nil =>
    cases p with
    | nil =>
      cases b with
      | nil => rfl
      | cons x xs => simp [containsL, startsWithL]
    | cons x xs => simp [containsL, startsWithL] at h
  | cons c cs ih =>
    simp only [containsL, decide_eq_true_eq] at h ⊢
    rcases h with h | h
    · exact Or.inl (startsWithL_append h)
    · exact Or.inr (ih h)

/-- Lowercasing distributes over append. -/
theorem lowerStr_append (a b : String) :
    lowerStr (a ++ b) = lowerStr a ++ lowerStr b := by
  simp [lowerStr, String.data_append]
  rfl

/-- `strIncludes` of a prefix extends to the appended string. -/
theorem strIncludes_append_left {a : String} (b : String) {p : String}
    (h : strIncludes a p = true) : strIncludes (a ++ b) p = true := by
  simp only [strIncludes, String.data_append]
  exact containsL_append_left h

/-- An error whose lowercased message contains `"terminated"` is
classified retriable. -/
theorem isRetriableError_of_terminated {e : Err}
    (h : strIncludes (lowerStr e.message) "terminated" = true) :
    isRetriableError e = true := by
  unfold isRetriableError
  dsimp only
  repeat' split <;> try rfl
  rename_i h1 h2 h3 h4 h5 h6
  exact absurd (Or.inl h) h5

/-- The split of a text on newlines is never the empty list of parts. -/
theorem splitNl_ne_nil (s : List Char) : splitNl s ≠ [] := by
  cases s with
  | nil => simp [splitNl]
  | cons c rest =>
    simp only [splitNl]
    split
    · simp
    · rcases splitNl rest with _ | ⟨p, ps⟩ <;> simp [consHead]

/-- No part produced by splitting on newlines contains a newline. -/
theorem splitNl_no_nl : ∀ (s : List Char), ∀ p ∈ splitNl s, ∀ ch ∈ p, ch ≠ '\n' := by
  intro s
  induction s with
  | nil =>
    intro p hp ch hch
    simp [splitNl] at hp
    subst hp
    simp at hch
  | cons c rest ih =>
    intro p hp ch hch
    by_cases hc : c = '\n'
    · simp only [splitNl, if_pos hc, List.mem_cons] at hp
      rcases hp with hp | hp
      · subst hp; simp at hch
      · exact ih p hp ch hch
    · simp only [splitNl, if_neg hc] at hp
      rcases hr : splitNl rest with _ | ⟨q, qs⟩
      · exact absurd hr (splitNl_ne_nil rest)
      · rw [hr] at hp
        simp only [consHead, List.cons_append, List.nil_append, List.mem_cons] at hp
        rcases hp with hp | hp
        · subst hp
          rw [List.mem_cons] at hch
          rcases hch with hch | hch
          · subst hch; exact hc
          · exact ih q (by rw [hr]; exact List.mem_cons_self q qs) ch hch
        · exact ih p (by rw [hr]; exact List.mem_cons_of_mem q hp) ch hch

/-- Gluing twice onto the head part is gluing the concatenation once. -/
theorem consHead_consHead (a b : List Char) (xs : List (List Char)) :
    consHead a (consHead b xs) = consHead (a ++ b) xs := by
  cases xs <;> simp [consHead]

/-- Prepending newline-free text glues it onto the first part of the
split. -/
theorem splitNl_noNl_prepend : ∀ (l b : List Char), (∀ c ∈ l, c ≠ '\n') →
    splitNl (l ++ b) = consHead l (splitNl b) := by
  intro l
  induction l with
  | nil =>
    intro b _
    rcases hr : splitNl b with _ | ⟨p, ps⟩
    · exact absurd hr (splitNl_ne_nil b)
    · rw [List.nil_append, hr]; simp [consHead]
  | cons c l' ih =>
    intro b h
    have hc : c ≠ '\n' := h c (List.mem_cons_self c l')
    simp only [List.cons_append, splitNl, if_neg hc, List.append_eq]
    rw [ih b (fun x hx => h x (List.mem_cons_of_mem c hx)), consHead_consHead,
      List.singleton_append]

/-- A newline-free text splits into exactly one part: itself. -/
theorem splitNl_of_noNl (l : List Char) (h : ∀ c ∈ l, c ≠ '\n') :
    splitNl l = [l] := by
  have := splitNl_noNl_prepend l [] h
  simpa [splitNl, consHead] using this

/-- The last part (with default) of a non-empty list is a member. -/
theorem getLastD_mem {α : Type} : ∀ (l : List α) (d : α), l ≠ [] → l.getLastD d ∈ l := by
  intro l
  induction l with
  | nil => intro d h; exact absurd rfl h
  | cons b t ih =>
    intro d _
    rw [List.getLastD_cons]
    cases t with
    | nil => simp [List.getLastD]
    | cons x xs => exact List.mem_cons_of_mem b (ih b (by simp))

/-- Dropping the last element of an append with non-empty right part. -/
theorem dropLast_append_ne {α : Type} : ∀ (A B : List α), B ≠ [] →
    (A ++ B).dropLast = A ++ B.dropLast := by
  intro A
  induction A with
  | nil => intro B _; simp
  | cons a A' ih =>
    intro B hB
    have hne : A' ++ B ≠ [] := by
      intro hcontra
      exact hB (List.append_eq_nil.mp hcontra).2
    rcases he : A' ++ B with _ | ⟨x, xs⟩
    · exact absurd he hne
    · rw [List.cons_append, he, List.dropLast_cons₂, ← he, ih B hB, List.cons_append]

/-- The last element (with default) of an append with non-empty right
part. -/
theorem getLastD_append_ne {α : Type} : ∀ (A B : List α) (d : α), B ≠ [] →
    (A ++ B).getLastD d = B.getLastD d := by
  intro A
  induction A with
  | nil => intro B d _; simp
  | cons a A' ih =>
    intro B d hB
    rw [List.cons_append, List.getLastD_cons, ih B a hB]
    rcases B with _ | ⟨b, t⟩
    · exact absurd rfl hB
    · rw [List.getLastD_cons, List.getLastD_cons]

/-- Splitting an appended text: the complete lines of the left part, then
the split of the right part glued onto the left residual. -/
theorem splitNl_append : ∀ (a b : List Char),
    splitNl (a ++ b) =
      (splitNl a).dropLast ++ consHead ((splitNl a).getLastD []) (splitNl b) := by
  intro a
  induction a with
  | nil =>
    intro b
    rcases hr : splitNl b with _ | ⟨p, ps⟩
    · exact absurd hr (splitNl_ne_nil b)
    · rw [List.nil_append]
      simp [splitNl, consHead, List.getLastD, hr]
  | cons c a' ih =>
    intro b
    by_cases hc : c = '\n'
    · rw [List.cons_append]
      simp only [splitNl, if_pos hc]
      rw [ih b]
      rcases hr : splitNl a' with _ | ⟨p, ps⟩
      · exact absurd hr (splitNl_ne_nil a')
      · rw [List.dropLast_cons₂, List.getLastD_cons, List.getLastD_cons, List.cons_append]
        rw [List.getLastD_cons]
    · rw [List.cons_append]
      simp only [splitNl, if_neg hc]
      rw [ih b]
      rcases hr : splitNl a' with _ | ⟨p, ps⟩
      · exact absurd hr (splitNl_ne_nil a')
      · rcases ps with _ | ⟨q, qs⟩
        · rcases splitNl b with _ | ⟨x, xs⟩ <;>
            simp [consHead, consHead_consHead, List.getLastD]
        · rcases splitNl b with _ | ⟨x, xs⟩ <;>
            simp [consHead, List.getLastD_cons, List.dropLast_cons₂]

/-- A line that trims to a `[DONE]` sentinel stops the decode loop. -/
theorem sseLineStep_stop_of_done (b : Json → Bool) (r : Bool) (st : SSEState)
    (l : List Char) (h : isDoneLine (trimChars l) = true) :
    sseLineStep b r st l = .stop := by
  have h' : trimChars l = "data: [DONE]".data ∨ trimChars l = "data:[DONE]".data := by
    simpa [isDoneLine, decide_eq_true_eq] using h
  rcases h' with h' | h' <;>
    · simp only [sseLineStep, h']
      rw [if_neg (by decide), if_pos (by decide)]

/-- A line that does not trim to a `[DONE]` sentinel continues the decode
loop. -/
theorem sseLineStep_cont_of_not_done (b : Json → Bool) (r : Bool) (st : SSEState)
    (l : List Char) (h : isDoneLine (trimChars l) = false) :
    ∃ st' evs, sseLineStep b r st l = .cont st' evs := by
  unfold sseLineStep
  dsimp only
  repeat' split
  all_goals try exact ⟨_, _, rfl⟩
  rename_i h2
  exact absurd h2 (by simp [h])

/-- If no complete line of a read is a `[DONE]` sentinel, the per-read
line loop runs to completion. -/
theorem sseLines_cont_of_no_done (b : Json → Bool) (r : Bool) :
    ∀ (lines : List (List Char)) (st : SSEState),
      (∀ l ∈ lines, isDoneLine (trimChars l) = false) →
      ∃ st' evs, sseLines b r st lines = .cont st' evs := by
  intro lines
  induction lines with
  | nil => intro st _; exact ⟨st, [], rfl⟩
  | cons l ls ih =>
    intro st h
    obtain ⟨st1, evs, h1⟩ :=
      sseLineStep_cont_of_not_done b r st l (h l (List.mem_cons_self l ls))
    obtain ⟨st2, evs2, h2⟩ := ih st1 (fun x hx => h x (List.mem_cons_of_mem l hx))
    exact ⟨st2, evs ++ evs2, by simp only [sseLines, h1, h2]⟩

/-- If some complete line of a read is a `[DONE]` sentinel, the per-read
line loop exits via the sentinel. -/
theorem sseLines_done_of_done (b : Json → Bool) (r : Bool) :
    ∀ (lines : List (List Char)) (st : SSEState),
      (∃ l ∈ lines, isDoneLine (trimChars l) = true) →
      ∃ evs, sseLines b r st lines = .doneEarly evs := by
  intro lines
  induction lines with
  | nil => intro st h; simp at h
  | cons l ls ih =>
    intro st h
    by_cases hd : isDoneLine (trimChars l) = true
    · exact ⟨[], by simp only [sseLines, sseLineStep_stop_of_done b r st l hd]⟩
    · have hd' : isDoneLine (trimChars l) = false := by
        cases hval : isDoneLine (trimChars l)
        · rfl
        · exact absurd hval hd
      obtain ⟨st1, evs, h1⟩ := sseLineStep_cont_of_not_done b r st l hd'
      obtain ⟨l0, hl0, hl0d⟩ := h
      rw [List.mem_cons] at hl0
      rcases hl0 with hl0 | hl0
      · subst hl0; exact absurd hl0d hd
      · obtain ⟨evs2, h2⟩ := ih st1 ⟨l0, hl0, hl0d⟩
        exact ⟨evs ++ evs2, by simp only [sseLines, h1, h2]⟩

/-- End-of-stream with no sentinel among the complete lines and a
non-blank residual: the shared read loop of the Anthropic / Chat /
Responses `parseSSEStream` raises the adapter's EOF error on the residual
buffer. -/
theorem sseRun_error_of_residual (b : Json → Bool) (r : Bool)
    (mk : SSEState → List Char → Err) :
    ∀ (chunks : List (List Char)) (st : SSEState) (buf : List Char),
      (∀ ch ∈ buf, ch ≠ '\n') →
      (∀ l ∈ (splitNl (buf ++ joinChunks chunks)).dropLast,
        isDoneLine (trimChars l) = false) →
      trimChars ((splitNl (buf ++ joinChunks chunks)).getLastD []) ≠ [] →
      ∃ st', sseRun b r mk st buf chunks =
        .error (mk st' ((splitNl (buf ++ joinChunks chunks)).getLastD [])) := by
  intro chunks
  induction chunks with
  | nil =>
    intro st buf hb _ hres
    have hs : splitNl (buf ++ joinChunks []) = [buf] := by
      simp only [joinChunks, List.append_nil]
      exact splitNl_of_noNl buf hb
    rw [hs] at hres ⊢
    have hlast : ([buf] : List (List Char)).getLastD [] = buf := rfl
    rw [hlast] at hres ⊢
    exact ⟨st, by simp only [sseRun]; rw [if_pos hres]⟩
  | cons c cs ih =>
    intro st buf hb hnd hres
    have hjoin : buf ++ joinChunks (c :: cs) = (buf ++ c) ++ joinChunks cs := by
      simp [joinChunks, List.append_assoc]
    have hPne : splitNl (buf ++ c) ≠ [] := splitNl_ne_nil _
    have hb1 : ∀ ch ∈ (splitNl (buf ++ c)).getLastD [], ch ≠ '\n' :=
      fun ch hch =>
        splitNl_no_nl (buf ++ c) _ (getLastD_mem (splitNl (buf ++ c)) [] hPne) ch hch
    have hdecomp : splitNl (buf ++ joinChunks (c :: cs)) =
        (splitNl (buf ++ c)).dropLast ++
          splitNl ((splitNl (buf ++ c)).getLastD [] ++ joinChunks cs) := by
      rw [hjoin, splitNl_append,
        splitNl_noNl_prepend ((splitNl (buf ++ c)).getLastD []) (joinChunks cs) hb1]
    have hQne : splitNl ((splitNl (buf ++ c)).getLastD [] ++ joinChunks cs) ≠ [] :=
      splitNl_ne_nil _
    have hlines : (splitNl (buf ++ joinChunks (c :: cs))).dropLast =
        (splitNl (buf ++ c)).dropLast ++
          (splitNl ((splitNl (buf ++ c)).getLastD [] ++ joinChunks cs)).dropLast := by
      rw [hdecomp, dropLast_append_ne _ _ hQne]
    have hlast : (splitNl (buf ++ joinChunks (c :: cs))).getLastD [] =
        (splitNl ((splitNl (buf ++ c)).getLastD [] ++ joinChunks cs)).getLastD [] := by
      rw [hdecomp, getLastD_append_ne _ _ _ hQne]
    obtain ⟨st1, evs, hL⟩ :=
      sseLines_cont_of_no_done b r (splitNl (buf ++ c)).dropLast st
        (fun l hl => hnd l (by rw [hlines]; exact List.mem_append_left _ hl))
    obtain ⟨st', hE⟩ := ih st1 ((splitNl (buf ++ c)).getLastD []) hb1
      (fun l hl => hnd l (by rw [hlines]; exact List.mem_append_right _ hl))
      (by rw [← hlast]; exact hres)
    refine ⟨st', ?_⟩
    rw [hlast]
    simp only [sseRun, hL, hE, Except.map]

/-- If some complete line of the decoded stream is a `[DONE]` sentinel,
the shared read loop of the Anthropic / Chat / Responses `parseSSEStream`
returns successfully, regardless of any residual buffered data. -/
theorem sseRun_ok_of_done (b : Json → Bool) (r : Bool)
    (mk : SSEState → List Char → Err) :
    ∀ (chunks : List (List Char)) (st : SSEState) (buf : List Char),
      (∀ ch ∈ buf, ch ≠ '\n') →
      (∃ l ∈ (splitNl (buf ++ joinChunks chunks)).dropLast,
        isDoneLine (trimChars l) = true) →
      ∃ evs, sseRun b r mk st buf chunks = .ok evs := by
  intro chunks
  induction chunks with
  | nil =>
    intro st buf hb hdone
    have hs : splitNl (buf ++ joinChunks []) = [buf] := by
      simp only [joinChunks, List.append_nil]
      exact splitNl_of_noNl buf hb
    rw [hs] at hdone
    simp [List.dropLast] at hdone
  | cons c cs ih =>
    intro st buf hb hdone
    have hjoin : buf ++ joinChunks (c :: cs) = (buf ++ c) ++ joinChunks cs := by
      simp [joinChunks, List.append_assoc]
    have hPne : splitNl (buf ++ c) ≠ [] := splitNl_ne_nil _
    have hb1 : ∀ ch ∈ (splitNl (buf ++ c)).getLastD [], ch ≠ '\n' :=
      fun ch hch =>
        splitNl_no_nl (buf ++ c) _ (getLastD_mem (splitNl (buf ++ c)) [] hPne) ch hch
    have hdecomp : splitNl (buf ++ joinChunks (c :: cs)) =
        (splitNl (buf ++ c)).dropLast ++
          splitNl ((splitNl (buf ++ c)).getLastD [] ++ joinChunks cs) := by
      rw [hjoin, splitNl_append,
        splitNl_noNl_prepend ((splitNl (buf ++ c)).getLastD []) (joinChunks cs) hb1]
    have hQne : splitNl ((splitNl (buf ++ c)).getLastD [] ++ joinChunks cs) ≠ [] :=
      splitNl_ne_nil _
    have hlines : (splitNl (buf ++ joinChunks (c :: cs))).dropLast =
        (splitNl (buf ++ c)).dropLast ++
          (splitNl ((splitNl (buf ++ c)).getLastD [] ++ joinChunks cs)).dropLast := by
      rw [hdecomp, dropLast_append_ne _ _ hQne]
    by_cases hd : ∃ l ∈ (splitNl (buf ++ c)).dropLast, isDoneLine (trimChars l) = true
    · obtain ⟨evs, hL⟩ := sseLines_done_of_done b r (splitNl (buf ++ c)).dropLast st hd
      exact ⟨evs, by simp only [sseRun, hL]⟩
    · have hnd1 : ∀ l ∈ (splitNl (buf ++ c)).dropLast, isDoneLine (trimChars l) = false := by
        intro l hl
        cases hval : isDoneLine (trimChars l)
        · rfl
        · exact absurd ⟨l, hl, hval⟩ hd
      obtain ⟨st1, evs, hL⟩ :=
        sseLines_cont_of_no_done b r (splitNl (buf ++ c)).dropLast st hnd1
      obtain ⟨l0, hl0, hl0d⟩ := hdone
      rw [hlines] at hl0
      rcases List.mem_append.mp hl0 with hl0 | hl0
      · exact absurd (hnd1 l0 hl0) (by simp [hl0d])
      · obtain ⟨evs2, hE⟩ :=
          ih st1 ((splitNl (buf ++ c)).getLastD []) hb1 ⟨l0, hl0, hl0d⟩
        exact ⟨evs ++ evs2, by simp only [sseRun, hL, hE, Except.map]⟩

/-- The Gemini read loop never exits early: end-of-stream with a
non-blank residual buffer raises the Gemini EOF error, even when a
`[DONE]` sentinel was seen. -/
theorem gemRun_error_of_residual :
    ∀ (chunks : List (List Char)) (st : SSEState) (buf : List Char),
      (∀ ch ∈ buf, ch ≠ '\n') →
      trimChars ((splitNl (buf ++ joinChunks chunks)).getLastD []) ≠ [] →
      gemRun st buf chunks =
        .error (gemEofErr ((splitNl (buf ++ joinChunks chunks)).getLastD [])) := by
  intro chunks
  induction chunks with
  | nil =>
    intro st buf hb hres
    have hs : splitNl (buf ++ joinChunks []) = [buf] := by
      simp only [joinChunks, List.append_nil]
      exact splitNl_of_noNl buf hb
    rw [hs] at hres ⊢
    have hlast : ([buf] : List (List Char)).getLastD [] = buf := rfl
    rw [hlast] at hres ⊢
    simp only [gemRun]
    rw [if_pos hres]
  | cons c cs ih =>
    intro st buf hb hres
    have hjoin : buf ++ joinChunks (c :: cs) = (buf ++ c) ++ joinChunks cs := by
      simp [joinChunks, List.append_assoc]
    have hPne : splitNl (buf ++ c) ≠ [] := splitNl_ne_nil _
    have hb1 : ∀ ch ∈ (splitNl (buf ++ c)).getLastD [], ch ≠ '\n' :=
      fun ch hch =>
        splitNl_no_nl (buf ++ c) _ (getLastD_mem (splitNl (buf ++ c)) [] hPne) ch hch
    have hdecomp : splitNl (buf ++ joinChunks (c :: cs)) =
        (splitNl (buf ++ c)).dropLast ++
          splitNl ((splitNl (buf ++ c)).getLastD [] ++ joinChunks cs) := by
      rw [hjoin, splitNl_append,
        splitNl_noNl_prepend ((splitNl (buf ++ c)).getLastD []) (joinChunks cs) hb1]
    have hQne : splitNl ((splitNl (buf ++ c)).getLastD [] ++ joinChunks cs) ≠ [] :=
      splitNl_ne_nil _
    have hlast : (splitNl (buf ++ joinChunks (c :: cs))).getLastD [] =
        (splitNl ((splitNl (buf ++ c)).getLastD [] ++ joinChunks cs)).getLastD [] := by
      rw [hdecomp, getLastD_append_ne _ _ _ hQne]
    rw [hlast]
    simp only [gemRun]
    rcases hG : gemLines st (splitNl (buf ++ c)).dropLast with ⟨st1, evs⟩
    have hE1 := ih st1 ((splitNl (buf ++ c)).getLastD []) hb1 (by rw [← hlast]; exact hres)
    simp only [hG, hE1, Except.map]

/-- A message containing the phrase "stream terminated unexpectedly"
(case-insensitively) is a stream interruption. -/
theorem isStreamInterruption_of_stu {msg : String}
    (h : strIncludes (lowerStr msg) "stream terminated unexpectedly" = true) :
    isStreamInterruption msg = true := by
  simp only [isStreamInterruption, decide_eq_true_eq]
  exact Or.inl h

set_option maxRecDepth 40000 in
/-- The Anthropic EOF error message contains "terminated unexpectedly"
and is classified retriable and a stream interruption. -/
theorem anthEofErr_props (st : SSEState) (buf : List Char) :
    strIncludes (anthEofErr st buf).message "terminated unexpectedly" = true ∧
    isRetriableError (anthEofErr st buf) = true ∧
    isStreamInterruption (anthEofErr st buf).message = true := by
  refine ⟨?_, ?_, ?_⟩
  · exact strIncludes_append_left _ (by decide)
  · apply isRetriableError_of_terminated
    dsimp only [anthEofErr]
    rw [lowerStr_append]
    exact strIncludes_append_left _ (by decide)
  · apply isStreamInterruption_of_stu
    dsimp only [anthEofErr]
    rw [lowerStr_append]
    exact strIncludes_append_left _ (by decide)

set_option maxRecDepth 40000 in
/-- The Chat (OpenAI) EOF error message contains "terminated
unexpectedly" and is classified retriable and a stream interruption. -/
theorem chatEofErr_props (st : SSEState) (buf : List Char) :
    strIncludes (chatEofErr st buf).message "terminated unexpectedly" = true ∧
    isRetriableError (chatEofErr st buf) = true ∧
    isStreamInterruption (chatEofErr st buf).message = true := by
  refine ⟨?_, ?_, ?_⟩
  · exact strIncludes_append_left _ (by decide)
  · apply isRetriableError_of_terminated
    dsimp only [chatEofErr]
    rw [lowerStr_append]
    exact strIncludes_append_left _ (by decide)
  · apply isStreamInterruption_of_stu
    dsimp only [chatEofErr]
    rw [lowerStr_append]
    exact strIncludes_append_left _ (by decide)

set_option maxRecDepth 40000 in
/-- The Responses EOF error message contains "terminated unexpectedly"
and is classified retriable and a stream interruption. -/
theorem respEofErr_props (st : SSEState) (buf : List Char) :
    strIncludes (respEofErr st buf).message "terminated unexpectedly" = true ∧
    isRetriableError (respEofErr st buf) = true ∧
    isStreamInterruption (respEofErr st buf).message = true := by
  refine ⟨?_, ?_, ?_⟩
  · exact strIncludes_append_left _ (strIncludes_append_left _ (by decide))
  · apply isRetriableError_of_terminated
    dsimp only [respEofErr]
    rw [lowerStr_append, lowerStr_append]
    exact strIncludes_append_left _ (strIncludes_append_left _ (by decide))
  · apply isStreamInterruption_of_stu
    dsimp only [respEofErr]
    rw [lowerStr_append, lowerStr_append]
    exact strIncludes_append_left _ (strIncludes_append_left _ (by decide))

set_option maxRecDepth 40000 in
/-- The Gemini EOF error message contains "terminated unexpectedly"
and is classified retriable and a stream interruption. -/
theorem gemEofErr_props (buf : List Char) :
    strIncludes (gemEofErr buf).message "terminated unexpectedly" = true ∧
    isRetriableError (gemEofErr buf) = true ∧
    isStreamInterruption (gemEofErr buf).message = true := by
  refine ⟨?_, ?_, ?_⟩
  · exact strIncludes_append_left _ (strIncludes_append_left _ (by decide))
  · apply isRetriableError_of_terminated
    dsimp only [gemEofErr]
    rw [lowerStr_append, lowerStr_append]
    exact strIncludes_append_left _ (strIncludes_append_left _ (by decide))
  · apply isStreamInterruption_of_stu
    dsimp only [gemEofErr]
    rw [lowerStr_append, lowerStr_append]
    exact strIncludes_append_left _ (strIncludes_append_left _ (by decide))

/-- C5: for every adapter decode loop, end-of-stream while the line
buffer still holds non-whitespace residual data (and no `[DONE]` sentinel
was seen among the complete lines) raises the adapter's retriable
"terminated unexpectedly" error, built from the residual buffer, instead
of completing normally: the error message contains "terminated
unexpectedly", `isRetriableError` accepts it and `isStreamInterruption`
accepts its message. -/
theorem claimC5 :
    (∀ chunks : List (List Char),
      (∀ l ∈ (splitNl (joinChunks chunks)).dropLast, isDoneLine (trimChars l) = false) →
      trimChars ((splitNl (joinChunks chunks)).getLastD []) ≠ [] →
      ∃ e, anthParseSSE chunks = Except.error e ∧
        (∃ st', e = anthEofErr st' ((splitNl (joinChunks chunks)).getLastD [])) ∧
        strIncludes e.message "terminated unexpectedly" = true ∧
        isRetriableError e = true ∧
        isStreamInterruption e.message = true) ∧
    (∀ chunks : List (List Char),
      (∀ l ∈ (splitNl (joinChunks chunks)).dropLast, isDoneLine (trimChars l) = false) →
      trimChars ((splitNl (joinChunks chunks)).getLastD []) ≠ [] →
      ∃ e, chatParseSSE chunks = Except.error e ∧
        (∃ st', e = chatEofErr st' ((splitNl (joinChunks chunks)).getLastD [])) ∧
        strIncludes e.message "terminated unexpectedly" = true ∧
        isRetriableError e = true ∧
        isStreamInterruption e.message = true) ∧
    (∀ chunks : List (List Char),
      (∀ l ∈ (splitNl (joinChunks chunks)).dropLast, isDoneLine (trimChars l) = false) →
      trimChars ((splitNl (joinChunks chunks)).getLastD []) ≠ [] →
      ∃ e, respParseSSE chunks = Except.error e ∧
        (∃ st', e = respEofErr st' ((splitNl (joinChunks chunks)).getLastD [])) ∧
        strIncludes e.message "terminated unexpectedly" = true ∧
        isRetriableError e = true ∧
        isStreamInterruption e.message = true) ∧
    (∀ chunks : List (List Char),
      (∀ l ∈ (splitNl (joinChunks chunks)).dropLast, isDoneLine (trimChars l) = false) →
      trimChars ((splitNl (joinChunks chunks)).getLastD []) ≠ [] →
      ∃ e, gemParseSSE chunks = Except.error e ∧
        e = gemEofErr ((splitNl (joinChunks chunks)).getLastD []) ∧
        strIncludes e.message "terminated unexpectedly" = true ∧
        isRetriableError e = true ∧
        isStreamInterruption e.message = true) := by
  refine ⟨?_, ?_, ?_, ?_⟩
  · intro chunks hnd hres
    obtain ⟨st', hE⟩ := sseRun_error_of_residual anthBusinessDelta true anthEofErr chunks
      sseInit [] (by simp) (by simpa using hnd) (by simpa using hres)
    rw [List.nil_append] at hE
    exact ⟨_, hE, ⟨st', rfl⟩, (anthEofErr_props st' _).1, (anthEofErr_props st' _).2.1,
      (anthEofErr_props st' _).2.2⟩
  · intro chunks hnd hres
    obtain ⟨st', hE⟩ := sseRun_error_of_residual chatBusinessDelta true chatEofErr chunks
      sseInit [] (by simp) (by simpa using hnd) (by simpa using hres)
    rw [List.nil_append] at hE
    exact ⟨_, hE, ⟨st', rfl⟩, (chatEofErr_props st' _).1, (chatEofErr_props st' _).2.1,
      (chatEofErr_props st' _).2.2⟩
  · intro chunks hnd hres
    obtain ⟨st', hE⟩ := sseRun_error_of_residual respBusinessDelta false respEofErr chunks
      sseInit [] (by simp) (by simpa using hnd) (by simpa using hres)
    rw [List.nil_append] at hE
    exact ⟨_, hE, ⟨st', rfl⟩, (respEofErr_props st' _).1, (respEofErr_props st' _).2.1,
      (respEofErr_props st' _).2.2⟩
  · intro chunks _ hres
    have hE := gemRun_error_of_residual chunks sseInit [] (by simp) (by simpa using hres)
    rw [List.nil_append] at hE
    exact ⟨_, hE, rfl, (gemEofErr_props _).1, (gemEofErr_props _).2.1,
      (gemEofErr_props _).2.2⟩

/-- Witness for C5: a stream consisting of one read `"partial"` (no
newline, no sentinel) makes all four decode loops raise their retriable
EOF error. -/
theorem claimC5_witness :
    (∃ e, anthParseSSE ["partial".data] = Except.error e ∧
      (∃ st', e = anthEofErr st'
        ((splitNl (joinChunks ["partial".data])).getLastD [])) ∧
      strIncludes e.message "terminated unexpectedly" = true ∧
      isRetriableError e = true ∧
      isStreamInterruption e.message = true) ∧
    (∃ e, chatParseSSE ["partial".data] = Except.error e ∧
      (∃ st', e = chatEofErr st'
        ((splitNl (joinChunks ["partial".data])).getLastD [])) ∧
      strIncludes e.message "terminated unexpectedly" = true ∧
      isRetriableError e = true ∧
      isStreamInterruption e.message = true) ∧
    (∃ e, respParseSSE ["partial".data] = Except.error e ∧
      (∃ st', e = respEofErr st'
        ((splitNl (joinChunks ["partial".data])).getLastD [])) ∧
      strIncludes e.message "terminated unexpectedly" = true ∧
      isRetriableError e = true ∧
      isStreamInterruption e.message = true) ∧
    (∃ e, gemParseSSE ["partial".data] = Except.error e ∧
      e = gemEofErr ((splitNl (joinChunks ["partial".data])).getLastD []) ∧
      strIncludes e.message "terminated unexpectedly" = true ∧
      isRetriableError e = true ∧
      isStreamInterruption e.message = true) :=
  ⟨claimC5.1 ["partial".data] (by decide) (by decide),
   claimC5.2.1 ["partial".data] (by decide) (by decide),
   claimC5.2.2.1 ["partial".data] (by decide) (by decide),
   claimC5.2.2.2 ["partial".data] (by decide) (by decide)⟩

/-- Counterexample to C9: the Gemini decode loop does NOT end the stream
on the `[DONE]` sentinel regardless of remaining buffered data.  On the
single read `"data: [DONE]\npartial"` the sentinel line is seen as a
complete line, yet the Gemini loop raises its EOF error on the residual
`"partial"`, while (for contrast) the Anthropic loop on the same read
ends successfully — the Gemini `[DONE]` handler only breaks the per-read
line loop, not the outer read loop (gemini.ts lines 630-632). -/
theorem claimC9_cex :
    (∃ l ∈ (splitNl (joinChunks ["data: [DONE]\npartial".data])).dropLast,
      isDoneLine (trimChars l) = true) ∧
    gemParseSSE ["data: [DONE]\npartial".data] =
      Except.error (gemEofErr "partial".data) ∧
    anthParseSSE ["data: [DONE]\npartial".data] = Except.ok [] := by
  refine ⟨by decide, rfl, rfl⟩

/-- C9 (amended): for the Anthropic, Chat and Responses decoders a
complete line trimming to `data: [DONE]` or `data:[DONE]` terminates the
stream successfully regardless of any remaining buffered data; the
Gemini decoder deviates: its sentinel handler only breaks the per-read
line loop, so a non-blank residual buffer at end-of-stream still raises
the retriable EOF error even when a sentinel was received. -/
theorem claimC9_amended :
    (∀ chunks : List (List Char),
      (∃ l ∈ (splitNl (joinChunks chunks)).dropLast, isDoneLine (trimChars l) = true) →
      ∃ evs, anthParseSSE chunks = Except.ok evs) ∧
    (∀ chunks : List (List Char),
      (∃ l ∈ (splitNl (joinChunks chunks)).dropLast, isDoneLine (trimChars l) = true) →
      ∃ evs, chatParseSSE chunks = Except.ok evs) ∧
    (∀ chunks : List (List Char),
      (∃ l ∈ (splitNl (joinChunks chunks)).dropLast, isDoneLine (trimChars l) = true) →
      ∃ evs, respParseSSE chunks = Except.ok evs) ∧
    (∀ chunks : List (List Char),
      trimChars ((splitNl (joinChunks chunks)).getLastD []) ≠ [] →
      gemParseSSE chunks =
        Except.error (gemEofErr ((splitNl (joinChunks chunks)).getLastD []))) := by
  refine ⟨?_, ?_, ?_, ?_⟩
  · intro chunks hdone
    have h := sseRun_ok_of_done anthBusinessDelta true anthEofErr chunks
      sseInit [] (by simp) (by simpa using hdone)
    exact h
  · intro chunks hdone
    exact sseRun_ok_of_done chatBusinessDelta true chatEofErr chunks
      sseInit [] (by simp) (by simpa using hdone)
  · intro chunks hdone
    exact sseRun_ok_of_done respBusinessDelta false respEofErr chunks
      sseInit [] (by simp) (by simpa using hdone)
  · intro chunks hres
    have hE := gemRun_error_of_residual chunks sseInit [] (by simp) (by simpa using hres)
    rw [List.nil_append] at hE
    exact hE

/-- Witness for C9 (amended): on the read `"data: [DONE]\nrest"` the
Anthropic decoder ends successfully; on the read `"rest"` the Gemini
decoder raises its EOF error. -/
theorem claimC9_witness :
    (∃ evs, anthParseSSE ["data: [DONE]\nrest".data] = Except.ok evs) ∧
    (∃ evs, chatParseSSE ["data:[DONE]\nrest".data] = Except.ok evs) ∧
    (∃ evs, respParseSSE ["data: [DONE]\nrest".data] = Except.ok evs) ∧
    gemParseSSE ["rest".data] =
      Except.error (gemEofErr ((splitNl (joinChunks ["rest".data])).getLastD [])) :=
  ⟨claimC9_amended.1 ["data: [DONE]\nrest".data] (by decide),
   claimC9_amended.2.1 ["data:[DONE]\nrest".data] (by decide),
   claimC9_amended.2.2.1 ["data: [DONE]\nrest".data] (by decide),
   claimC9_amended.2.2.2 ["rest".data] (by decide)⟩
